import Mathlib
set_option maxRecDepth 100000

/-!
# Verification of the gemini-review result pipeline

Shallow embedding of `src/skills/gemini-review/scripts/gemini_review.py`:
the response normalizer `parse_json_response` (fence stripping, strict JSON
decode, structural defaulting, id backfill, stats recomputation), the
complexity estimator `calculate_thinking_level`, the issue grouping of
`format_interactive_output`, and the file-collection phase of `review_code`.

Python values decoded from JSON are modelled by the inductive `Json`;
Python dicts are insertion-ordered association lists (`objSet` updates an
existing key in place, otherwise appends, exactly like `d[k] = v`).
Dynamic failures (`TypeError`, `AttributeError`, `KeyError`) that the
Python code would raise are modelled by `Except PyErr`; the `except`
clause of `parse_json_response` catches only `json.JSONDecodeError`, so
these propagate to the caller, which the model renders as `.error`.
Whitespace is modelled as the four characters space, tab, newline,
carriage return (the whitespace class of the JSON decoder; Python's
`str.strip` and the regex class `\s` additionally strip a few rarer
characters, which no claim exercises).
-/

/-- A JSON value as produced by `json.loads`: Python dicts are modelled as
insertion-ordered association lists with string keys.  `fnum m e` models a
float literal with decimal mantissa `m` and exponent `e` (its exact decimal
value; no claim observes float values, only their presence). -/
inductive Json where
  | null : Json
  | bool (b : Bool) : Json
  | num (n : Int) : Json
  | fnum (m : Int) (e : Int) : Json
  | str (s : String) : Json
  | arr (xs : List Json) : Json
  | obj (fields : List (String × Json)) : Json
  deriving Repr

/-- Exceptions the Python code can raise past the `except json.JSONDecodeError`
clause. -/
inductive PyErr where
  | typeError : PyErr
  | attributeError : PyErr
  | keyError : PyErr
  deriving Repr, DecidableEq

/-- First-match lookup in an insertion-ordered dict (Python `d[k]` on a dict
with unique keys, as `json.loads` guarantees). -/
def objLookup : List (String × Json) → String → Option Json
  | [], _ => none
  | (k', v') :: rest, k => if k' = k then some v' else objLookup rest k

/-- Python `d[k] = v` on a dict: update the value in place when the key is
present (keeping its position), otherwise append the new pair. -/
def objSet : List (String × Json) → String → Json → List (String × Json)
  | [], k, v => [(k, v)]
  | (k', v') :: rest, k, v =>
    if k' = k then (k', v) :: rest else (k', v') :: objSet rest k v

/-- Does `pat` occur at the head of `s`? -/
def startsL : List Char → List Char → Bool
  | [], _ => true
  | _ :: _, [] => false
  | p :: ps, c :: cs => p = c && startsL ps cs

/-- Does `pat` occur anywhere in `s`?  (Python `pat in s` for strings.) -/
def containsSub : List Char → List Char → Bool
  | [], pat => startsL pat []
  | s@(_ :: rest), pat => startsL pat s || containsSub rest pat

/-- Python `k in v`: substring test on strings, element test on lists
(a string compares equal only to an equal string), key test on dicts;
`TypeError` on non-iterables. -/
def pyContains (v : Json) (k : String) : Except PyErr Bool :=
  match v with
  | .str s => .ok (containsSub s.toList k.toList)
  | .arr xs => .ok (xs.any (fun e => match e with | .str s => s = k | _ => false))
  | .obj fs => .ok ((objLookup fs k).isSome)
  | _ => .error .typeError

/-- Python `v[k]` for a string key: dict lookup (`KeyError` when absent),
`TypeError` on any other value. -/
def getItem : Json → String → Except PyErr Json
  | .obj fs, k =>
    match objLookup fs k with
    | some v => .ok v
    | none => .error .keyError
  | _, _ => .error .typeError

/-- Python `v[k] = x` for a string key: dict update, `TypeError` otherwise. -/
def setItem : Json → String → Json → Except PyErr Json
  | .obj fs, k, x => .ok (.obj (objSet fs k x))
  | _, _, _ => .error .typeError

/-- Python `v.get(k)`: only dicts have `.get` (`AttributeError` otherwise). -/
def pyGet : Json → String → Except PyErr (Option Json)
  | .obj fs, k => .ok (objLookup fs k)
  | _, _ => .error .attributeError

/-- Python iteration over a JSON value: lists yield elements, strings yield
one-character strings, dicts yield their keys; other values raise
`TypeError`. -/
def pyIter : Json → Except PyErr (List Json)
  | .arr xs => .ok xs
  | .str s => .ok (s.toList.map (fun c => .str (String.mk [c])))
  | .obj fs => .ok (fs.map (fun p => .str p.1))
  | _ => .error .typeError

/-- Lines 170-175 pattern `if k not in data: data[k] = dflt`. -/
def ensureKey (data : Json) (k : String) (dflt : Json) : Except PyErr Json := do
  let has ← pyContains data k
  if has then pure data else setItem data k dflt

/-- The synthesized summary of line 171. -/
def defaultSummary : Json :=
  .obj [("verdict", .str "request_changes"),
        ("overview", .str "Review completed"),
        ("stats", .obj [])]

/-- Lines 169-175 of `parse_json_response`: default the three top-level keys. -/
def step_defaults (data : Json) : Except PyErr Json := do
  let d1 ← ensureKey data "summary" defaultSummary
  let d2 ← ensureKey d1 "issues" (.arr [])
  ensureKey d2 "positive_aspects" (.arr [])

/-- The loop body of lines 178-180 over the already-materialized element
sequence, numbering from `n`: `if "id" not in issue: issue["id"] = i`. -/
def backfillList : Nat → List Json → Except PyErr (List Json)
  | _, [] => .ok []
  | n, x :: rest => do
    let has ← pyContains x "id"
    let x' ← if has then pure x else setItem x "id" (.num n)
    let rest' ← backfillList (n + 1) rest
    pure (x' :: rest')

/-- Lines 177-180 of `parse_json_response`: iterate `data["issues"]` and
backfill missing ids.  When `data["issues"]` is a list the (in-place)
element mutations are visible through `data` afterwards; iterating a string
or dict yields fresh derived values, so `data` is unchanged when the loop
completes. -/
def step_backfill (data : Json) : Except PyErr Json := do
  let v ← getItem data "issues"
  match v with
  | .arr xs => do
    let xs' ← backfillList 1 xs
    setItem data "issues" (.arr xs')
  | other => do
    let elems ← pyIter other
    let _ ← backfillList 1 elems
    pure data

/-- Python `x == "v"` for an optional JSON value (`d.get(k) == "v"`): only an
equal string compares equal; `None` and non-strings compare unequal. -/
def optEqStr : Option Json → String → Bool
  | some (.str s), v => s = v
  | _, _ => false

/-- `sum(1 for i in elems if i.get(k) == v)` with `v` a string literal. -/
def countGetEq : List Json → String → String → Except PyErr Nat
  | [], _, _ => .ok 0
  | i :: rest, k, v => do
    let g ← pyGet i k
    let n ← countGetEq rest k v
    pure ((if optEqStr g v then 1 else 0) + n)

/-- Pure field test: is `i` a dict whose field `k` equals the string `v`? -/
def jFieldEq (i : Json) (k v : String) : Bool :=
  match i with
  | .obj fs => optEqStr (objLookup fs k) v
  | _ => false

/-- The same count as a pure function, meaningful on dict elements (the
number of issues whose field `k` equals the string `v`). -/
def countJ (elems : List Json) (k v : String) : Nat :=
  elems.countP (fun i => jFieldEq i k v)

/-- Lines 183-184: `if "stats" not in data["summary"]: data["summary"]["stats"] = &#123;&#125;`
(the in-place mutation of the summary dict, written back). -/
def statsEnsure (data summary0 : Json) (has : Bool) : Except PyErr Json :=
  if has then .ok data
  else do
    let summary' ← setItem summary0 "stats" (.obj [])
    setItem data "summary" summary'

/-- Lines 182-188 of `parse_json_response`: ensure `summary.stats` exists,
then overwrite its `blocking`/`warning`/`suggestion` entries with counts
over `data["issues"]`. -/
def step_stats (data : Json) : Except PyErr Json := do
  let summary0 ← getItem data "summary"
  let has ← pyContains summary0 "stats"
  let data1 ← statsEnsure data summary0 has
  let summary1 ← getItem data1 "summary"
  let stats0 ← getItem summary1 "stats"
  let issuesVal ← getItem data1 "issues"
  let elems ← pyIter issuesVal
  let b ← countGetEq elems "severity" "blocking"
  let w ← countGetEq elems "severity" "non-blocking"
  let s ← countGetEq elems "type" "suggestion"
  let stats1 ← setItem stats0 "blocking" (.num b)
  let stats2 ← setItem stats1 "warning" (.num w)
  let stats3 ← setItem stats2 "suggestion" (.num s)
  let summary2 ← setItem summary1 "stats" stats3
  setItem data1 "summary" summary2

/-- Lines 169-190 of `parse_json_response`: the success path applied to the
decoded value (validation defaults, id backfill, stats recomputation). -/
def normalizeReply (data : Json) : Except PyErr Json :=
  step_defaults data >>= step_backfill >>= step_stats

/-- Whitespace as recognized by the JSON decoder (and, on all inputs the
claims exercise, by `str.strip` and the regex class of whitespace). -/
def wsB (c : Char) : Bool := c = ' ' || c = '\t' || c = '\n' || c = '\r'

/-- Strip leading and trailing whitespace (Python `str.strip()`). -/
def trimL (cs : List Char) : List Char :=
  ((cs.dropWhile wsB).reverse.dropWhile wsB).reverse

/-- The three-backtick fence delimiter. -/
def ticksL : List Char := ['`', '`', '`']

/-- Index of the first occurrence of a closing fence. -/
def closeIdx : List Char → Option Nat
  | [] => none
  | c :: rest =>
    if startsL ticksL (c :: rest) then some 0
    else (closeIdx rest).map (· + 1)

/-- Line 159: the search for a fenced block, with optional tag.  This is the
operational content of searching for three backticks, an optional `json`
tag, and a lazily-matched interior up to the next three backticks, with the
whitespace anchors on both sides of the capture group: the group is the
text before the first closing fence, trimmed of surrounding whitespace. -/
def fenceFrom : List Char → Option (List Char)
  | [] => none
  | c :: rest =>
    if startsL ticksL (c :: rest) then
      let r' := rest.drop 2
      let r := if startsL ['j', 's', 'o', 'n'] r' then r'.drop 4 else r'
      match closeIdx r with
      | some i => some (trimL (r.take i))
      | none => fenceFrom rest
    else fenceFrom rest

/-- Lines 159-164: replace the text by the first fenced block's interior when
one exists, then strip surrounding whitespace. -/
def preprocessL (cs : List Char) : List Char :=
  trimL (match fenceFrom cs with | some g => g | none => cs)

/-- Numeric value of a list of decimal digits. -/
def digitsVal (ds : List Char) : Nat :=
  ds.foldl (fun a c => a * 10 + (c.toNat - 48)) 0

/-- Hex digit value, if any. -/
def hexVal (c : Char) : Option Nat :=
  if c.isDigit then some (c.toNat - 48)
  else if 97 ≤ c.toNat && c.toNat ≤ 102 then some (c.toNat - 87)
  else if 65 ≤ c.toNat && c.toNat ≤ 70 then some (c.toNat - 55)
  else none

/-- String body decoder: consumes up to the closing quote, handling the JSON
escapes; rejects raw control characters as the strict decoder does. -/
def parseStrBody : Nat → List Char → List Char → Except String (String × List Char)
  | 0, _, _ => .error "Fuel exhausted"
  | _ + 1, [], _ => .error "Unterminated string"
  | f + 1, c :: rest, acc =>
    if c = '"' then .ok (String.mk acc.reverse, rest)
    else if c = '\\' then
      match rest with
      | [] => .error "Unterminated string"
      | e :: r2 =>
        if e = '"' || e = '\\' || e = '/' then parseStrBody f r2 (e :: acc)
        else if e = 'n' then parseStrBody f r2 ('\n' :: acc)
        else if e = 't' then parseStrBody f r2 ('\t' :: acc)
        else if e = 'r' then parseStrBody f r2 ('\r' :: acc)
        else if e = 'b' then parseStrBody f r2 (Char.ofNat 8 :: acc)
        else if e = 'f' then parseStrBody f r2 (Char.ofNat 12 :: acc)
        else if e = 'u' then
          match r2 with
          | h1 :: h2 :: h3 :: h4 :: r3 =>
            match hexVal h1, hexVal h2, hexVal h3, hexVal h4 with
            | some a, some b, some c', some d =>
              parseStrBody f r3 (Char.ofNat (((a * 16 + b) * 16 + c') * 16 + d) :: acc)
            | _, _, _, _ => .error "Invalid \\uXXXX escape"
          | _ => .error "Invalid \\uXXXX escape"
        else .error "Invalid \\escape"
    else if c.toNat < 32 then .error "Invalid control character"
    else parseStrBody f rest (c :: acc)

/-- Number decoder: the strict decoder's grammar `-?(0|[1-9]digits)`
with optional fraction and exponent; an integer literal yields `num`, a
fraction or exponent yields the exact decimal `fnum`. -/
def parseNumTail (neg : Bool) (intDs : List Char) (cs : List Char) :
    Except String (Json × List Char) :=
  let fracP :=
    match cs with
    | '.' :: d :: r =>
      if d.isDigit then
        let ds := (d :: r).takeWhile Char.isDigit
        some (ds, (d :: r).dropWhile Char.isDigit)
      else none
    | _ => none
  let (fracDs, cs1) := match fracP with | some (ds, r) => (ds, r) | none => ([], cs)
  let expP :=
    match cs1 with
    | e :: r =>
      if e = 'e' || e = 'E' then
        match r with
        | s :: d :: r2 =>
          if (s == '+' || s == '-') && d.isDigit then
            let ds := (d :: r2).takeWhile Char.isDigit
            some (s == '-', ds, (d :: r2).dropWhile Char.isDigit)
          else if s.isDigit then
            let ds := (s :: d :: r2).takeWhile Char.isDigit
            some (false, ds, (s :: d :: r2).dropWhile Char.isDigit)
          else none
        | [d] =>
          if d.isDigit then some (false, [d], []) else none
        | [] => none
      else none
    | [] => none
  let (expNeg, expDs, cs2) :=
    match expP with
    | some (en, ds, r) => (en, ds, r)
    | none => (false, [], cs1)
  let mag : Int := Int.ofNat (digitsVal (intDs ++ fracDs))
  let m : Int := if neg then -mag else mag
  if fracP = none && expP = none then
    .ok (.num m, cs)
  else
    let ev : Int := if expNeg then -(Int.ofNat (digitsVal expDs)) else Int.ofNat (digitsVal expDs)
    .ok (.fnum m (ev - Int.ofNat fracDs.length), cs2)

/-- Entry for a number: `cs` begins at `-` or a digit. -/
def parseNumber (cs : List Char) : Except String (Json × List Char) :=
  let (neg, cs1) := match cs with | '-' :: r => (true, r) | _ => (false, cs)
  match cs1 with
  | c :: rest =>
    if c = '0' then parseNumTail neg ['0'] rest
    else if c.isDigit then
      parseNumTail neg ((c :: rest).takeWhile Char.isDigit)
        ((c :: rest).dropWhile Char.isDigit)
    else .error "Expecting value"
  | [] => .error "Expecting value"

/-- Skip JSON whitespace. -/
def skipWsJ (cs : List Char) : List Char := cs.dropWhile wsB

/-- Left brace and right brace characters. -/
def lbraceC : Char := Char.ofNat 123

/-- Right brace character. -/
def rbraceC : Char := Char.ofNat 125

mutual

/-- The strict JSON value decoder (a model of `json.loads`' recursive
descent over the integer-and-decimal numeric fragment), fueled. -/
def parseVal : Nat → List Char → Except String (Json × List Char)
  | 0, _ => .error "Fuel exhausted"
  | f + 1, cs =>
    match skipWsJ cs with
    | [] => .error "Expecting value"
    | c :: rest =>
      if c = lbraceC then
        match skipWsJ rest with
        | c' :: rest' =>
          if c' = rbraceC then .ok (.obj [], rest')
          else parseMembers f (c' :: rest') []
        | [] => .error "Expecting property name enclosed in double quotes"
      else if c = '[' then
        match skipWsJ rest with
        | ']' :: rest' => .ok (.arr [], rest')
        | cs' => parseItems f cs' []
      else if c = '"' then
        match parseStrBody (rest.length + 1) rest [] with
        | .ok (s, r) => .ok (.str s, r)
        | .error e => .error e
      else if startsL ['t', 'r', 'u', 'e'] (c :: rest) then
        .ok (.bool true, rest.drop 3)
      else if startsL ['f', 'a', 'l', 's', 'e'] (c :: rest) then
        .ok (.bool false, rest.drop 4)
      else if startsL ['n', 'u', 'l', 'l'] (c :: rest) then
        .ok (.null, rest.drop 3)
      else if c = '-' || c.isDigit then
        parseNumber (c :: rest)
      else .error "Expecting value"
termination_by structural f cs => f

/-- Object members: expects a key string at the head. -/
def parseMembers : Nat → List Char → List (String × Json) →
    Except String (Json × List Char)
  | 0, _, _ => .error "Fuel exhausted"
  | f + 1, cs, acc =>
    match cs with
    | '"' :: rest =>
      match parseStrBody (rest.length + 1) rest [] with
      | .error e => .error e
      | .ok (k, r1) =>
        match skipWsJ r1 with
        | ':' :: r2 =>
          match parseVal f r2 with
          | .error e => .error e
          | .ok (v, r3) =>
            let acc' := objSet acc k v
            match skipWsJ r3 with
            | ',' :: r4 => parseMembers f (skipWsJ r4) acc'
            | c4 :: r4 =>
              if c4 = rbraceC then .ok (.obj acc', r4)
              else .error "Expecting ',' delimiter"
            | [] => .error "Expecting ',' delimiter"
        | _ => .error "Expecting ':' delimiter"
    | _ => .error "Expecting property name enclosed in double quotes"
termination_by structural f cs acc => f

/-- Array items: expects a value at the head. -/
def parseItems : Nat → List Char → List Json → Except String (Json × List Char)
  | 0, _, _ => .error "Fuel exhausted"
  | f + 1, cs, acc =>
    match parseVal f cs with
    | .error e => .error e
    | .ok (v, r1) =>
      match skipWsJ r1 with
      | ',' :: r2 => parseItems f r2 (v :: acc)
      | ']' :: r2 => .ok (.arr (v :: acc).reverse, r2)
      | _ => .error "Expecting ',' delimiter"
termination_by structural f cs acc => f

end

/-- Model of `json.loads` on the decoded character list: parse one value and
require only whitespace to remain. -/
def json_loads (cs : List Char) : Except String Json :=
  match parseVal (cs.length + 1) cs with
  | .error e => .error e
  | .ok (v, rest) =>
    if skipWsJ rest = [] then .ok v else .error "Extra data"

/-- The `JSON_PARSE_ERROR` dict of lines 192-196. -/
def json_parse_error_dict (e : String) (raw : List Char) : Json :=
  .obj [("error", .str "JSON_PARSE_ERROR"),
        ("message", .str ("Failed to parse response: " ++ e)),
        ("raw_response", .str (String.mk (raw.take 500)))]

/-- Lines 156-196, `parse_json_response`: strip a fenced block if present,
trim, strictly decode; on decode failure return the error dict, otherwise
run the success path.  A dynamic error (`.error`) models an exception
propagating out of the function, since only `json.JSONDecodeError` is
caught. -/
def parse_json_response (s : String) : Except PyErr Json :=
  let t := preprocessL s.toList
  match json_loads t with
  | .ok data => normalizeReply data
  | .error e => .ok (json_parse_error_dict e t)

/-- The security keywords of lines 83-84. -/
def security_keywords : List String :=
  ["password", "auth", "token", "secret", "encrypt", "sql", "query"]

/-- Python `s.count(pat)`: non-overlapping occurrences, scanning left to
right; the third argument counts characters still to skip past a match. -/
def countSubA : List Char → List Char → Nat → Nat
  | [], _, _ => 0
  | _ :: rest, pat, k + 1 => countSubA rest pat k
  | c :: rest, pat, 0 =>
    if !pat.isEmpty && startsL pat (c :: rest) then
      1 + countSubA rest pat (pat.length - 1)
    else countSubA rest pat 0

/-- Python `s.count(pat)` for nonempty `pat`. -/
def countSub (s pat : List Char) : Nat := countSubA s pat 0

/-- ASCII lowercasing (Python `str.lower` on the inputs exercised). -/
def lowerS (s : String) : String := String.mk (s.toList.map Char.toLower)

/-- Line 79: `total_lines = code_content.count('\n')`. -/
def total_lines (code_content : String) : Nat :=
  code_content.toList.countP (fun c => c = '\n')

/-- Lines 83-84: any security keyword occurs case-insensitively. -/
def has_security_code (code_content : String) : Bool :=
  security_keywords.any (fun kw => containsSub (lowerS code_content).toList kw.toList)

/-- Line 85: asynchronous control-flow markers occur. -/
def has_async (code_content : String) : Bool :=
  containsSub code_content.toList "async".toList ||
  containsSub code_content.toList "await".toList

/-- Line 86: more than two class-definition markers occur. -/
def has_classes (code_content : String) : Bool :=
  decide (countSub code_content.toList "class ".toList > 2)

/-- Lines 88-93: the complexity score, as an exact rational.  The Python
float computation stays well clear of the decision thresholds relative to
float rounding error (all non-line terms are dyadic and the line term is a
correctly rounded `n/200`), so the branch taken below is the same. -/
def complexity_score (files : List String) (code_content : String) : ℚ :=
  min ((total_lines code_content : ℚ) / 200) 2
  + (files.length : ℚ) * (1 / 2)
  + (if has_security_code code_content then 1 else 0)
  + (if has_async code_content then 1 / 2 else 0)
  + (if has_classes code_content then 1 / 2 else 0)

/-- Lines 77-100, `calculate_thinking_level`: heuristic effort level from
the code text and file count. -/
def calculate_thinking_level (files : List String) (code_content : String) : String :=
  if complexity_score files code_content < 3 / 2 then "minimal"
  else if complexity_score files code_content < 3 then "medium"
  else "high"

/-- Line 341: `[i for i in issues if i.get("severity") == "blocking"]`. -/
def blocking_issues : List Json → Except PyErr (List Json)
  | [] => .ok []
  | i :: rest => do
    let g ← pyGet i "severity"
    let r ← blocking_issues rest
    pure (if optEqStr g "blocking" then i :: r else r)

/-- Line 342: severity `non-blocking` and type not `suggestion` (the `and`
short-circuits, so `type` is only read when the severity test passes). -/
def warning_issues : List Json → Except PyErr (List Json)
  | [] => .ok []
  | i :: rest => do
    let g ← pyGet i "severity"
    if optEqStr g "non-blocking" then do
      let t ← pyGet i "type"
      let r ← warning_issues rest
      pure (if optEqStr t "suggestion" then r else i :: r)
    else warning_issues rest

/-- Line 343: `[i for i in issues if i.get("type") == "suggestion"]`. -/
def suggestion_issues : List Json → Except PyErr (List Json)
  | [] => .ok []
  | i :: rest => do
    let g ← pyGet i "type"
    let r ← suggestion_issues rest
    pure (if optEqStr g "suggestion" then i :: r else r)

/-- What the filesystem holds at a candidate path, for the file-collection
phase of `review_code`: the path may not exist, may not be a regular file,
may fail to read, or yields text content. -/
inductive FileEntry where
  | missing : FileEntry
  | notFile : FileEntry
  | readError (msg : String) : FileEntry
  | file (content : String) : FileEntry

/-- Line 215: the non-code extension exclusion set. -/
def skip_extensions : List String :=
  [".json", ".yaml", ".yml", ".toml", ".md", ".txt", ".lock", ".log"]

/-- `pathlib.Path(p).suffix`: the final component's extension including the
dot; empty when the name has no dot past its first character. -/
def pySuffix (p : String) : String :=
  let name := (p.toList.reverse.takeWhile (fun c => c ≠ '/')).reverse
  match (List.range name.length).reverse.find? (fun i => name.getD i ' ' = '.') with
  | some i => if 0 < i ∧ i < name.length - 1 then String.mk (name.drop i) else ""
  | none => ""

/-- Line 227's placeholder for an oversized file. -/
def placeholderPart (fp : String) (content : String) : String :=
  "### " ++ fp ++ "\n[File too large - " ++ toString content.length ++ " bytes, skipped]"

/-- Line 237's marker for a read failure. -/
def errorPart (fp msg : String) : String :=
  "### " ++ fp ++ "\n[Error reading: " ++ msg ++ "]"

/-- Python format code `i:4d`: right-aligned decimal in width 4. -/
def fmt4 (n : Nat) : String :=
  let s := toString n
  String.mk (List.replicate (4 - s.length) ' ') ++ s

/-- Lines 229-234: the fenced, line-numbered rendering of a readable file. -/
def numberedPart (fp : String) (content : String) : String :=
  let lines := content.splitOn "\n"
  let numbered := (List.range lines.length).map
    (fun i => fmt4 (i + 1) ++ " | " ++ lines.getD i "")
  let lang := (pySuffix fp).drop 1
  "### " ++ fp ++ "\n```" ++ lang ++ "\n" ++ String.intercalate "\n" numbered ++ "\n```"

/-- Lines 217-237 of `review_code`: walk the candidate paths, skipping
missing/non-regular files and excluded extensions, rendering oversized
files as a placeholder (without marking them valid), read failures as an
error marker, and readable files as numbered parts plus a valid-file entry. -/
def review_collect (fs : String → FileEntry) : List String → List String × List String
  | [] => ([], [])
  | fp :: rest =>
    match fs fp with
    | .missing => review_collect fs rest
    | .notFile => review_collect fs rest
    | .readError e =>
      if lowerS (pySuffix fp) ∈ skip_extensions then review_collect fs rest
      else
        let (ps, vs) := review_collect fs rest
        (errorPart fp e :: ps, vs)
    | .file content =>
      if lowerS (pySuffix fp) ∈ skip_extensions then review_collect fs rest
      else if content.length > 50000 then
        let (ps, vs) := review_collect fs rest
        (placeholderPart fp content :: ps, vs)
      else
        let (ps, vs) := review_collect fs rest
        (numberedPart fp content :: ps, fp :: vs)

/-- The `NO_FILES` error dict of line 240. -/
def no_files_dict : Json :=
  .obj [("error", .str "NO_FILES"),
        ("message", .str "No valid code files to review")]

/-- Lines 217-240 of `review_code`: the file-collection phase and its
short-circuit — when no file survives filtering, the `NO_FILES` error is
returned before any prompt is built.  (The dependency check and credential
lookup that precede it are external collaborators, modelled as satisfied.) -/
def review_code_files (fs : String → FileEntry) (paths : List String) :
    Except Json (List String × List String) :=
  let (parts, valids) := review_collect fs paths
  if valids = [] then .error no_files_dict else .ok (parts, valids)

/-- Pure dict-field lookup on a JSON value (`none` on non-dicts). -/
def jLookup (d : Json) (k : String) : Option Json :=
  match d with
  | .obj fs => objLookup fs k
  | _ => none

/-- The field `k` of `summary.stats` of a result, when that path exists. -/
def statsField (d : Json) (k : String) : Option Json :=
  ((jLookup d "summary").bind (fun s => jLookup s "stats")).bind (fun st => jLookup st k)

/-- The `id` field of an issue dict. -/
def issueId (y : Json) : Option Json := jLookup y "id"

/-- Bind on `Except` succeeds exactly when both stages succeed. -/
theorem exceptBind_ok {α β : Type} {x : Except PyErr α} {f : α → Except PyErr β} {b : β} :
    x >>= f = .ok b ↔ ∃ a, x = .ok a ∧ f a = .ok b := by
  cases x with
  | ok a => simp [Bind.bind, Except.bind]
  | error e => simp [Bind.bind, Except.bind]

/-- Pure is `.ok`. -/
theorem exceptPure_eq {α : Type} (a : α) : (pure a : Except PyErr α) = .ok a := rfl

/-- Looking up the key just set yields the new value. -/
theorem objLookup_objSet_self (fs : List (String × Json)) (k : String) (v : Json) :
    objLookup (objSet fs k v) k = some v := by
  induction fs with
  | nil => simp [objSet, objLookup]
  | cons p rest ih =>
    obtain ⟨k', v'⟩ := p
    by_cases h : k' = k <;> simp [objSet, objLookup, h, ih]

/-- Setting one key leaves lookups of other keys unchanged. -/
theorem objLookup_objSet_ne (fs : List (String × Json)) {k k' : String} (v : Json)
    (h : k ≠ k') : objLookup (objSet fs k v) k' = objLookup fs k' := by
  induction fs with
  | nil => simp [objSet, objLookup, h]
  | cons p rest ih =>
    obtain ⟨k'', v''⟩ := p
    by_cases h2 : k'' = k
    · subst h2; simp [objSet, objLookup, h]
    · simp [objSet, objLookup, h2, ih]

/-- `getItem` succeeds exactly on a dict field. -/
theorem getItem_eq_ok_iff {d : Json} {k : String} {v : Json} :
    getItem d k = .ok v ↔ jLookup d k = some v := by
  cases d <;> simp [getItem, jLookup]
  case obj fs => cases h : objLookup fs k <;> simp [h]

/-- After a successful `setItem`, the set key holds the new value. -/
theorem getItem_setItem_self {d d' : Json} {k : String} {v : Json}
    (h : setItem d k v = .ok d') : getItem d' k = .ok v := by
  cases d <;> simp [setItem] at h
  subst h
  simp [getItem, objLookup_objSet_self]

/-- After a successful `setItem`, other keys are unchanged. -/
theorem getItem_setItem_ne {d d' : Json} {k k' : String} {v : Json}
    (hk : k ≠ k') (h : setItem d k v = .ok d') : getItem d' k' = getItem d k' := by
  cases d <;> simp [setItem] at h
  subst h
  simp [getItem, objLookup_objSet_ne _ _ hk]

/-- `setItem` always succeeds on a dict. -/
theorem setItem_obj (fs : List (String × Json)) (k : String) (v : Json) :
    setItem (.obj fs) k v = .ok (.obj (objSet fs k v)) := rfl

/-- `ensureKey` with the key present is the identity. -/
theorem ensureKey_of_present {fs : List (String × Json)} {k : String} {dflt v : Json}
    (h : objLookup fs k = some v) :
    ensureKey (.obj fs) k dflt = .ok (.obj fs) := by
  simp [ensureKey, pyContains, h, Bind.bind, Except.bind, Pure.pure, Except.pure]

/-- `ensureKey` with the key absent appends the default. -/
theorem ensureKey_of_absent {fs : List (String × Json)} {k : String} {dflt : Json}
    (h : objLookup fs k = none) :
    ensureKey (.obj fs) k dflt = .ok (.obj (objSet fs k dflt)) := by
  simp [ensureKey, pyContains, h, Bind.bind, Except.bind, setItem]

/-- After `step_defaults` on a dict, the three top-level keys hold the
original values when present and the synthesized defaults otherwise. -/
theorem step_defaults_obj (fs : List (String × Json)) :
    ∃ fs1, step_defaults (.obj fs) = .ok (.obj fs1)
      ∧ objLookup fs1 "summary" = some ((objLookup fs "summary").getD defaultSummary)
      ∧ objLookup fs1 "issues" = some ((objLookup fs "issues").getD (.arr []))
      ∧ objLookup fs1 "positive_aspects" = some ((objLookup fs "positive_aspects").getD (.arr []))
      ∧ ∀ k, k ≠ "summary" → k ≠ "issues" → k ≠ "positive_aspects" →
          objLookup fs1 k = objLookup fs k := by
  have step1 : ∃ fsa, ensureKey (.obj fs) "summary" defaultSummary = .ok (.obj fsa)
      ∧ objLookup fsa "summary" = some ((objLookup fs "summary").getD defaultSummary)
      ∧ ∀ k, k ≠ "summary" → objLookup fsa k = objLookup fs k := by
    cases h : objLookup fs "summary" with
    | none =>
      exact ⟨objSet fs "summary" defaultSummary, ensureKey_of_absent h,
        by simp [objLookup_objSet_self], fun k hk => objLookup_objSet_ne fs _ hk.symm⟩
    | some v =>
      exact ⟨fs, ensureKey_of_present h, by simp [h], fun k _ => rfl⟩
  obtain ⟨fsa, ha, ha1, ha2⟩ := step1
  have step2 : ∃ fsb, ensureKey (.obj fsa) "issues" (.arr []) = .ok (.obj fsb)
      ∧ objLookup fsb "issues" = some ((objLookup fsa "issues").getD (.arr []))
      ∧ ∀ k, k ≠ "issues" → objLookup fsb k = objLookup fsa k := by
    cases h : objLookup fsa "issues" with
    | none =>
      exact ⟨objSet fsa "issues" (.arr []), ensureKey_of_absent h,
        by simp [objLookup_objSet_self], fun k hk => objLookup_objSet_ne fsa _ hk.symm⟩
    | some v =>
      exact ⟨fsa, ensureKey_of_present h, by simp [h], fun k _ => rfl⟩
  obtain ⟨fsb, hb, hb1, hb2⟩ := step2
  have step3 : ∃ fsc, ensureKey (.obj fsb) "positive_aspects" (.arr []) = .ok (.obj fsc)
      ∧ objLookup fsc "positive_aspects" = some ((objLookup fsb "positive_aspects").getD (.arr []))
      ∧ ∀ k, k ≠ "positive_aspects" → objLookup fsc k = objLookup fsb k := by
    cases h : objLookup fsb "positive_aspects" with
    | none =>
      exact ⟨objSet fsb "positive_aspects" (.arr []), ensureKey_of_absent h,
        by simp [objLookup_objSet_self], fun k hk => objLookup_objSet_ne fsb _ hk.symm⟩
    | some v =>
      exact ⟨fsb, ensureKey_of_present h, by simp [h], fun k _ => rfl⟩
  obtain ⟨fsc, hc, hc1, hc2⟩ := step3
  refine ⟨fsc, ?_, ?_, ?_, ?_, ?_⟩
  · simp only [step_defaults]
    rw [exceptBind_ok]
    refine ⟨.obj fsa, ha, ?_⟩
    rw [exceptBind_ok]
    exact ⟨.obj fsb, hb, hc⟩
  · rw [hc2 _ (by decide), hb2 _ (by decide), ha1]
  · rw [hc2 _ (by decide), hb1, ha2 _ (by decide)]
  · rw [hc1, hb2 _ (by decide), ha2 _ (by decide)]
  · intro k h1 h2 h3
    rw [hc2 _ h3, hb2 _ h2, ha2 _ h1]

/-- Id backfill never touches keys other than `issues`. -/
theorem step_backfill_pres {d d' : Json} (h : step_backfill d = .ok d')
    {k : String} (hk : k ≠ "issues") : getItem d' k = getItem d k := by
  simp only [step_backfill] at h
  rw [exceptBind_ok] at h
  obtain ⟨v, hv, h⟩ := h
  cases v with
  | arr xs =>
    rw [exceptBind_ok] at h
    obtain ⟨xs', hxs, h⟩ := h
    exact getItem_setItem_ne (Ne.symm hk) h
  | null =>
    rw [exceptBind_ok] at h
    obtain ⟨elems, he, h⟩ := h
    rw [exceptBind_ok] at h
    obtain ⟨u, hu, h⟩ := h
    cases h
    rfl
  | bool b =>
    rw [exceptBind_ok] at h
    obtain ⟨elems, he, h⟩ := h
    rw [exceptBind_ok] at h
    obtain ⟨u, hu, h⟩ := h
    cases h
    rfl
  | num n =>
    rw [exceptBind_ok] at h
    obtain ⟨elems, he, h⟩ := h
    rw [exceptBind_ok] at h
    obtain ⟨u, hu, h⟩ := h
    cases h
    rfl
  | fnum m e =>
    rw [exceptBind_ok] at h
    obtain ⟨elems, he, h⟩ := h
    rw [exceptBind_ok] at h
    obtain ⟨u, hu, h⟩ := h
    cases h
    rfl
  | str s =>
    rw [exceptBind_ok] at h
    obtain ⟨elems, he, h⟩ := h
    rw [exceptBind_ok] at h
    obtain ⟨u, hu, h⟩ := h
    cases h
    rfl
  | obj fs =>
    rw [exceptBind_ok] at h
    obtain ⟨elems, he, h⟩ := h
    rw [exceptBind_ok] at h
    obtain ⟨u, hu, h⟩ := h
    cases h
    rfl

/-- Stats recomputation never touches keys other than `summary`. -/
theorem step_stats_pres {d d' : Json} (h : step_stats d = .ok d')
    {k : String} (hk : k ≠ "summary") : getItem d' k = getItem d k := by
  simp only [step_stats] at h
  rw [exceptBind_ok] at h
  obtain ⟨summary0, hs0, h⟩ := h
  rw [exceptBind_ok] at h
  obtain ⟨has, hhas, h⟩ := h
  rw [exceptBind_ok] at h
  obtain ⟨data1, hd1, h⟩ := h
  rw [exceptBind_ok] at h
  obtain ⟨summary1, hs1, h⟩ := h
  rw [exceptBind_ok] at h
  obtain ⟨stats0, hst0, h⟩ := h
  rw [exceptBind_ok] at h
  obtain ⟨issuesVal, hiv, h⟩ := h
  rw [exceptBind_ok] at h
  obtain ⟨elems, hel, h⟩ := h
  rw [exceptBind_ok] at h
  obtain ⟨b, hb, h⟩ := h
  rw [exceptBind_ok] at h
  obtain ⟨w, hw, h⟩ := h
  rw [exceptBind_ok] at h
  obtain ⟨sg, hsg, h⟩ := h
  rw [exceptBind_ok] at h
  obtain ⟨stats1, hst1, h⟩ := h
  rw [exceptBind_ok] at h
  obtain ⟨stats2, hst2, h⟩ := h
  rw [exceptBind_ok] at h
  obtain ⟨stats3, hst3, h⟩ := h
  rw [exceptBind_ok] at h
  obtain ⟨summary2, hs2, h⟩ := h
  have hstep : getItem d' k = getItem data1 k := getItem_setItem_ne (Ne.symm hk) h
  cases has with
  | true =>
    simp only [statsEnsure, if_pos] at hd1
    cases hd1
    exact hstep
  | false =>
    simp only [statsEnsure, Bool.false_eq_true, if_false] at hd1
    rw [exceptBind_ok] at hd1
    obtain ⟨summary', hsum', hset⟩ := hd1
    rw [hstep]
    exact getItem_setItem_ne (Ne.symm hk) hset

/-- A successful `countGetEq` computes the pure field count. -/
theorem countGetEq_ok {l : List Json} {k v : String} {n : Nat}
    (h : countGetEq l k v = .ok n) : n = countJ l k v := by
  induction l generalizing n with
  | nil =>
    simp only [countGetEq] at h
    cases h
    simp [countJ]
  | cons i rest ih =>
    simp only [countGetEq] at h
    rw [exceptBind_ok] at h
    obtain ⟨g, hg, h⟩ := h
    rw [exceptBind_ok] at h
    obtain ⟨m, hm, h⟩ := h
    cases h
    cases i with
    | obj fs =>
      simp only [pyGet] at hg
      cases hg
      simp [countJ, List.countP_cons, jFieldEq, ih hm, Nat.add_comm]
    | null => simp [pyGet] at hg
    | bool b => simp [pyGet] at hg
    | num m' => simp [pyGet] at hg
    | fnum m' e => simp [pyGet] at hg
    | str s => simp [pyGet] at hg
    | arr xs => simp [pyGet] at hg

/-- After a successful stats step, the three stat fields of `summary.stats`
are exactly the field counts over the issues sequence of the result. -/
theorem step_stats_spec {d0 d : Json} (h : step_stats d0 = .ok d) :
    ∃ iv elems,
      getItem d "issues" = .ok iv ∧ pyIter iv = .ok elems ∧
      statsField d "blocking" = some (.num (countJ elems "severity" "blocking")) ∧
      statsField d "warning" = some (.num (countJ elems "severity" "non-blocking")) ∧
      statsField d "suggestion" = some (.num (countJ elems "type" "suggestion")) := by
  simp only [step_stats] at h
  rw [exceptBind_ok] at h
  obtain ⟨summary0, hs0, h⟩ := h
  rw [exceptBind_ok] at h
  obtain ⟨has, hhas, h⟩ := h
  rw [exceptBind_ok] at h
  obtain ⟨data1, hd1, h⟩ := h
  rw [exceptBind_ok] at h
  obtain ⟨summary1, hs1, h⟩ := h
  rw [exceptBind_ok] at h
  obtain ⟨stats0, hst0, h⟩ := h
  rw [exceptBind_ok] at h
  obtain ⟨issuesVal, hiv, h⟩ := h
  rw [exceptBind_ok] at h
  obtain ⟨elems, hel, h⟩ := h
  rw [exceptBind_ok] at h
  obtain ⟨b, hb, h⟩ := h
  rw [exceptBind_ok] at h
  obtain ⟨w, hw, h⟩ := h
  rw [exceptBind_ok] at h
  obtain ⟨sg, hsg, h⟩ := h
  rw [exceptBind_ok] at h
  obtain ⟨stats1, hst1, h⟩ := h
  rw [exceptBind_ok] at h
  obtain ⟨stats2, hst2, h⟩ := h
  rw [exceptBind_ok] at h
  obtain ⟨stats3, hst3, h⟩ := h
  rw [exceptBind_ok] at h
  obtain ⟨summary2, hs2, h⟩ := h
  refine ⟨issuesVal, elems, ?_, hel, ?_, ?_, ?_⟩
  · rw [getItem_setItem_ne (by decide) h]
    exact hiv
  · have h1 : jLookup d "summary" = some summary2 :=
      getItem_eq_ok_iff.mp (getItem_setItem_self h)
    have h2 : jLookup summary2 "stats" = some stats3 :=
      getItem_eq_ok_iff.mp (getItem_setItem_self hs2)
    have h3 : getItem stats3 "blocking" = .ok (.num b) := by
      rw [getItem_setItem_ne (by decide) hst3, getItem_setItem_ne (by decide) hst2]
      exact getItem_setItem_self hst1
    simp only [statsField, h1, h2, Option.bind_some, Option.some_bind]
    rw [← countGetEq_ok hb]
    exact getItem_eq_ok_iff.mp h3
  · have h1 : jLookup d "summary" = some summary2 :=
      getItem_eq_ok_iff.mp (getItem_setItem_self h)
    have h2 : jLookup summary2 "stats" = some stats3 :=
      getItem_eq_ok_iff.mp (getItem_setItem_self hs2)
    have h3 : getItem stats3 "warning" = .ok (.num w) := by
      rw [getItem_setItem_ne (by decide) hst3]
      exact getItem_setItem_self hst2
    simp only [statsField, h1, h2, Option.bind_some, Option.some_bind]
    rw [← countGetEq_ok hw]
    exact getItem_eq_ok_iff.mp h3
  · have h1 : jLookup d "summary" = some summary2 :=
      getItem_eq_ok_iff.mp (getItem_setItem_self h)
    have h2 : jLookup summary2 "stats" = some stats3 :=
      getItem_eq_ok_iff.mp (getItem_setItem_self hs2)
    have h3 : getItem stats3 "suggestion" = .ok (.num sg) :=
      getItem_setItem_self hst3
    simp only [statsField, h1, h2, Option.bind_some, Option.some_bind]
    rw [← countGetEq_ok hsg]
    exact getItem_eq_ok_iff.mp h3

/-- Claim C1: every success result of the normalizer has `summary.stats`
with `blocking` the number of issues whose `severity` is `"blocking"`,
`warning` the number whose `severity` is `"non-blocking"`, and `suggestion`
the number whose `type` is `"suggestion"`, counted over the result's own
issues sequence. -/
theorem c1_stats_recomputed (s : String) (j d : Json)
    (hdec : json_loads (preprocessL s.toList) = .ok j)
    (hnorm : normalizeReply j = .ok d) :
    parse_json_response s = .ok d ∧
    ∃ iv elems,
      getItem d "issues" = .ok iv ∧ pyIter iv = .ok elems ∧
      statsField d "blocking" = some (.num (countJ elems "severity" "blocking")) ∧
      statsField d "warning" = some (.num (countJ elems "severity" "non-blocking")) ∧
      statsField d "suggestion" = some (.num (countJ elems "type" "suggestion")) := by
  constructor
  · simp only [parse_json_response, hdec]
    exact hnorm
  · simp only [normalizeReply] at hnorm
    rw [exceptBind_ok] at hnorm
    obtain ⟨d2, _, h3⟩ := hnorm
    exact step_stats_spec h3

/-- Witness for C1 at a concrete reply with one blocking issue. -/
theorem c1_witness :
    parse_json_response "\x7b\"issues\": [\x7b\"severity\": \"blocking\"\x7d]\x7d" = .ok (.obj
      [("issues", .arr [.obj [("severity", .str "blocking"), ("id", .num 1)]]),
       ("summary", .obj
          [("verdict", .str "request_changes"),
           ("overview", .str "Review completed"),
           ("stats", .obj [("blocking", .num 1), ("warning", .num 0), ("suggestion", .num 0)])]),
       ("positive_aspects", .arr [])]) ∧
    ∃ iv elems,
      getItem (.obj
      [("issues", .arr [.obj [("severity", .str "blocking"), ("id", .num 1)]]),
       ("summary", .obj
          [("verdict", .str "request_changes"),
           ("overview", .str "Review completed"),
           ("stats", .obj [("blocking", .num 1), ("warning", .num 0), ("suggestion", .num 0)])]),
       ("positive_aspects", .arr [])]) "issues" = .ok iv ∧ pyIter iv = .ok elems ∧
      statsField (.obj
      [("issues", .arr [.obj [("severity", .str "blocking"), ("id", .num 1)]]),
       ("summary", .obj
          [("verdict", .str "request_changes"),
           ("overview", .str "Review completed"),
           ("stats", .obj [("blocking", .num 1), ("warning", .num 0), ("suggestion", .num 0)])]),
       ("positive_aspects", .arr [])]) "blocking" = some (.num (countJ elems "severity" "blocking")) ∧
      statsField (.obj
      [("issues", .arr [.obj [("severity", .str "blocking"), ("id", .num 1)]]),
       ("summary", .obj
          [("verdict", .str "request_changes"),
           ("overview", .str "Review completed"),
           ("stats", .obj [("blocking", .num 1), ("warning", .num 0), ("suggestion", .num 0)])]),
       ("positive_aspects", .arr [])]) "warning" = some (.num (countJ elems "severity" "non-blocking")) ∧
      statsField (.obj
      [("issues", .arr [.obj [("severity", .str "blocking"), ("id", .num 1)]]),
       ("summary", .obj
          [("verdict", .str "request_changes"),
           ("overview", .str "Review completed"),
           ("stats", .obj [("blocking", .num 1), ("warning", .num 0), ("suggestion", .num 0)])]),
       ("positive_aspects", .arr [])]) "suggestion" = some (.num (countJ elems "type" "suggestion")) :=
  c1_stats_recomputed _
    (.obj [("issues", .arr [.obj [("severity", .str "blocking")]])]) _ rfl rfl

/-- Bind after `.ok` just applies the continuation. -/
theorem okBind {α β : Type} (a : α) (f : α → Except PyErr β) :
    (Except.ok a : Except PyErr α) >>= f = f a := rfl

/-- On a sequence of dict elements, the generator count succeeds and
computes the pure count. -/
theorem countGetEq_of_obj {l : List Json} (hobj : ∀ x ∈ l, ∃ gfs, x = .obj gfs)
    (k v : String) : countGetEq l k v = .ok (countJ l k v) := by
  induction l with
  | nil => simp [countGetEq, countJ]
  | cons i rest ih =>
    obtain ⟨gfs, hg⟩ := hobj i (by simp)
    subst hg
    have ih' := ih (fun x hx => hobj x (by simp [hx]))
    simp [countGetEq, pyGet, okBind, ih', countJ, List.countP_cons, jFieldEq, Nat.add_comm]

/-- Id backfill on a sequence of dict elements succeeds and yields dict
elements. -/
theorem backfillList_of_obj {xs : List Json} (hobj : ∀ x ∈ xs, ∃ gfs, x = .obj gfs)
    (n : Nat) : ∃ ys, backfillList n xs = .ok ys ∧ ∀ y ∈ ys, ∃ gfs, y = .obj gfs := by
  induction xs generalizing n with
  | nil => exact ⟨[], rfl, by simp⟩
  | cons x rest ih =>
    obtain ⟨gfs, hg⟩ := hobj x (by simp)
    subst hg
    obtain ⟨ys, hys, hysobj⟩ := ih (fun x hx => hobj x (by simp [hx])) (n + 1)
    by_cases h : (objLookup gfs "id").isSome
    · refine ⟨.obj gfs :: ys, ?_, ?_⟩
      · simp [backfillList, pyContains, h, okBind, hys, exceptPure_eq]
      · intro y hy
        rcases List.mem_cons.mp hy with hy | hy
        · exact ⟨gfs, hy⟩
        · exact hysobj y hy
    · refine ⟨.obj (objSet gfs "id" (.num n)) :: ys, ?_, ?_⟩
      · simp [backfillList, pyContains, h, okBind, hys, exceptPure_eq, setItem]
      · intro y hy
        rcases List.mem_cons.mp hy with hy | hy
        · exact ⟨objSet gfs "id" (.num n), hy⟩
        · exact hysobj y hy

/-- Id backfill succeeds on a dict whose issues are a list of dicts, and
rewrites only the issues entry. -/
theorem step_backfill_obj {fs1 : List (String × Json)} {xs : List Json}
    (hiss : objLookup fs1 "issues" = some (.arr xs))
    (hobj : ∀ x ∈ xs, ∃ gfs, x = .obj gfs) :
    ∃ ys, step_backfill (.obj fs1) = .ok (.obj (objSet fs1 "issues" (.arr ys)))
      ∧ (∀ y ∈ ys, ∃ gfs, y = .obj gfs) := by
  obtain ⟨ys, hys, hysobj⟩ := backfillList_of_obj hobj 1
  refine ⟨ys, ?_, hysobj⟩
  simp [step_backfill, getItem, hiss, okBind, hys, setItem]

/-- A computation with `isOk` true is an `.ok`. -/
theorem exceptIsOk {α : Type} {e : Except PyErr α} (h : e.isOk = true) : ∃ d, e = .ok d := by
  cases e with
  | ok a => exact ⟨a, rfl⟩
  | error b => simp [Except.isOk, Except.toBool] at h

/-- The stats step succeeds on a dict whose summary is a dict with a dict
(or absent) stats entry and whose issues are a list of dicts. -/
theorem step_stats_obj {fs2 sfs : List (String × Json)} {xs : List Json}
    (hsum : objLookup fs2 "summary" = some (.obj sfs))
    (hst : objLookup sfs "stats" = none ∨ ∃ stfs, objLookup sfs "stats" = some (.obj stfs))
    (hiss : objLookup fs2 "issues" = some (.arr xs))
    (hobj : ∀ x ∈ xs, ∃ gfs, x = .obj gfs) :
    ∃ d, step_stats (.obj fs2) = .ok d := by
  apply exceptIsOk
  rcases hst with hst | ⟨stfs, hst⟩
  · simp only [step_stats, statsEnsure, getItem, setItem, pyContains, pyIter, hsum, hst, hiss,
      okBind, countGetEq_of_obj hobj, Option.isSome_none, Bool.false_eq_true, if_false,
      objLookup_objSet_self]
    rw [objLookup_objSet_ne fs2 _ (by decide)]
    rw [hiss]
    simp only [okBind, pyIter, countGetEq_of_obj hobj, setItem, Except.isOk, Except.toBool]
  · simp only [step_stats, statsEnsure, getItem, setItem, pyContains, pyIter, hsum, hst, hiss,
      okBind, Option.isSome_some, if_true, countGetEq_of_obj hobj, Except.isOk, Except.toBool]

/-- Claim C2 (amended): the normalizer never raises on a decoded reply whose
top level is a dict, whose `summary` (when present) is a dict with a dict or
absent `stats`, and whose `issues` (when present) is a list of dicts; on
such replies it returns a result. -/
theorem c2_amended (fs : List (String × Json))
    (hsum : ∀ v, objLookup fs "summary" = some v →
      ∃ sfs, v = .obj sfs ∧
        (objLookup sfs "stats" = none ∨ ∃ stfs, objLookup sfs "stats" = some (.obj stfs)))
    (hiss : ∀ v, objLookup fs "issues" = some v →
      ∃ xs, v = .arr xs ∧ ∀ x ∈ xs, ∃ gfs, x = .obj gfs) :
    ∃ d, normalizeReply (.obj fs) = .ok d := by
  obtain ⟨fs1, hdef, h1sum, h1iss, h1pos, h1other⟩ := step_defaults_obj fs
  have hsum1 : ∃ sfs, objLookup fs1 "summary" = some (.obj sfs) ∧
      (objLookup sfs "stats" = none ∨ ∃ stfs, objLookup sfs "stats" = some (.obj stfs)) := by
    cases ho : objLookup fs "summary" with
    | none =>
      refine ⟨[("verdict", .str "request_changes"), ("overview", .str "Review completed"),
        ("stats", .obj [])], ?_, .inr ⟨[], rfl⟩⟩
      rw [h1sum, ho]
      rfl
    | some v =>
      obtain ⟨sfs, hv, hstat⟩ := hsum v ho
      subst hv
      refine ⟨sfs, ?_, hstat⟩
      rw [h1sum, ho]
      rfl
  have hiss1 : ∃ xs, objLookup fs1 "issues" = some (.arr xs) ∧ ∀ x ∈ xs, ∃ gfs, x = .obj gfs := by
    cases ho : objLookup fs "issues" with
    | none =>
      refine ⟨[], ?_, by simp⟩
      rw [h1iss, ho]
      rfl
    | some v =>
      obtain ⟨xs, hv, hall⟩ := hiss v ho
      subst hv
      refine ⟨xs, ?_, hall⟩
      rw [h1iss, ho]
      rfl
  obtain ⟨sfs, hs1, hstat1⟩ := hsum1
  obtain ⟨xs, hi1, hall1⟩ := hiss1
  obtain ⟨ys, hbf, hysobj⟩ := step_backfill_obj hi1 hall1
  have hs2 : objLookup (objSet fs1 "issues" (.arr ys)) "summary" = some (.obj sfs) := by
    rw [objLookup_objSet_ne fs1 _ (by decide)]
    exact hs1
  have hi2 : objLookup (objSet fs1 "issues" (.arr ys)) "issues" = some (.arr ys) :=
    objLookup_objSet_self fs1 _ _
  obtain ⟨d, hss⟩ := step_stats_obj hs2 hstat1 hi2 hysobj
  refine ⟨d, ?_⟩
  simp only [normalizeReply]
  exact exceptBind_ok.mpr ⟨.obj (objSet fs1 "issues" (.arr ys)),
    exceptBind_ok.mpr ⟨.obj fs1, hdef, hbf⟩, hss⟩

/-- Counterexample for C2 as stated: the reply `[1, 2]` decodes to a JSON
array, and the normalizer raises `TypeError` instead of returning a result. -/
theorem c2_counterexample : parse_json_response "[1, 2]" = .error .typeError := rfl

/-- Witness for C2 (amended) at a reply carrying all three keys. -/
theorem c2_witness :
    ∃ d, normalizeReply (.obj [("summary", .obj [("stats", .obj [("blocking", .num 9)])]),
      ("issues", .arr [.obj [("title", .str "t")]])]) = .ok d := by
  refine c2_amended _ (fun v hv => ?_) (fun v hv => ?_)
  · simp [objLookup] at hv
    exact ⟨[("stats", .obj [("blocking", .num 9)])], hv.symm, .inr ⟨[("blocking", .num 9)], rfl⟩⟩
  · simp [objLookup] at hv
    refine ⟨[.obj [("title", .str "t")]], hv.symm, ?_⟩
    intro x hx
    rcases List.mem_singleton.mp hx with h
    exact ⟨[("title", .str "t")], h⟩

/-- A successful blocking-group comprehension is the pure severity filter. -/
theorem blocking_issues_ok {l bs : List Json} (h : blocking_issues l = .ok bs) :
    bs = l.filter (fun i => jFieldEq i "severity" "blocking") := by
  induction l generalizing bs with
  | nil =>
    simp only [blocking_issues] at h
    cases h
    rfl
  | cons i rest ih =>
    simp only [blocking_issues] at h
    rw [exceptBind_ok] at h
    obtain ⟨g, hg, h⟩ := h
    rw [exceptBind_ok] at h
    obtain ⟨r, hr, h⟩ := h
    cases h
    cases i with
    | obj fs =>
      simp only [pyGet] at hg
      cases hg
      simp [List.filter_cons, jFieldEq, ih hr]
    | null => simp [pyGet] at hg
    | bool b => simp [pyGet] at hg
    | num m => simp [pyGet] at hg
    | fnum m e => simp [pyGet] at hg
    | str s => simp [pyGet] at hg
    | arr xs => simp [pyGet] at hg

/-- A successful suggestion-group comprehension is the pure kind filter. -/
theorem suggestion_issues_ok {l ss : List Json} (h : suggestion_issues l = .ok ss) :
    ss = l.filter (fun i => jFieldEq i "type" "suggestion") := by
  induction l generalizing ss with
  | nil =>
    simp only [suggestion_issues] at h
    cases h
    rfl
  | cons i rest ih =>
    simp only [suggestion_issues] at h
    rw [exceptBind_ok] at h
    obtain ⟨g, hg, h⟩ := h
    rw [exceptBind_ok] at h
    obtain ⟨r, hr, h⟩ := h
    cases h
    cases i with
    | obj fs =>
      simp only [pyGet] at hg
      cases hg
      simp [List.filter_cons, jFieldEq, ih hr]
    | null => simp [pyGet] at hg
    | bool b => simp [pyGet] at hg
    | num m => simp [pyGet] at hg
    | fnum m e => simp [pyGet] at hg
    | str s => simp [pyGet] at hg
    | arr xs => simp [pyGet] at hg

/-- A successful warnings-group comprehension is the pure filter for
non-blocking severity and non-suggestion kind. -/
theorem warning_issues_ok {l ws : List Json} (h : warning_issues l = .ok ws) :
    ws = l.filter (fun i =>
      jFieldEq i "severity" "non-blocking" && ! jFieldEq i "type" "suggestion") := by
  induction l generalizing ws with
  | nil =>
    simp only [warning_issues] at h
    cases h
    rfl
  | cons i rest ih =>
    simp only [warning_issues] at h
    rw [exceptBind_ok] at h
    obtain ⟨g, hg, h⟩ := h
    cases i with
    | obj fs =>
      simp only [pyGet] at hg
      cases hg
      by_cases hsev : optEqStr (objLookup fs "severity") "non-blocking"
      · rw [if_pos hsev] at h
        rw [exceptBind_ok] at h
        obtain ⟨t, ht, h⟩ := h
        rw [exceptBind_ok] at h
        obtain ⟨r, hr, h⟩ := h
        cases h
        simp only [pyGet] at ht
        cases ht
        by_cases hty : optEqStr (objLookup fs "type") "suggestion"
        · simp [List.filter_cons, jFieldEq, hsev, hty, ih hr]
        · simp [List.filter_cons, jFieldEq, hsev, hty, ih hr]
      · rw [if_neg hsev] at h
        simp only [Bool.not_eq_true] at hsev
        simp [List.filter_cons, jFieldEq, hsev, ih h]
    | null => simp [pyGet] at hg
    | bool b => simp [pyGet] at hg
    | num m => simp [pyGet] at hg
    | fnum m e => simp [pyGet] at hg
    | str s => simp [pyGet] at hg
    | arr xs => simp [pyGet] at hg

/-- Claim C3 (amended): the three visual groups are three independent
filters — blocking severity; non-blocking severity with non-suggestion
kind; suggestion kind.  They preserve input order, the warnings group is
disjoint from the other two, but an issue with suggestion kind and blocking
severity is listed in both the blocking and the suggestion groups. -/
theorem c3_amended (l bs ws ss : List Json)
    (hb : blocking_issues l = .ok bs)
    (hw : warning_issues l = .ok ws)
    (hs : suggestion_issues l = .ok ss) :
    bs = l.filter (fun i => jFieldEq i "severity" "blocking") ∧
    ws = l.filter (fun i =>
      jFieldEq i "severity" "non-blocking" && ! jFieldEq i "type" "suggestion") ∧
    ss = l.filter (fun i => jFieldEq i "type" "suggestion") ∧
    (∀ i ∈ l, jFieldEq i "severity" "blocking" = true →
      jFieldEq i "type" "suggestion" = true → i ∈ bs ∧ i ∈ ss) := by
  refine ⟨blocking_issues_ok hb, warning_issues_ok hw, suggestion_issues_ok hs, ?_⟩
  intro i hi h1 h2
  constructor
  · rw [blocking_issues_ok hb]
    exact List.mem_filter.mpr ⟨hi, h1⟩
  · rw [suggestion_issues_ok hs]
    exact List.mem_filter.mpr ⟨hi, h2⟩

/-- Counterexample for C3 as stated: an issue with blocking severity and
suggestion kind appears in the blocking group (and in the suggestion
group), so the groups are not a partition by precedence. -/
theorem c3_counterexample :
    blocking_issues [.obj [("severity", .str "blocking"), ("type", .str "suggestion")]] =
      .ok [.obj [("severity", .str "blocking"), ("type", .str "suggestion")]] ∧
    suggestion_issues [.obj [("severity", .str "blocking"), ("type", .str "suggestion")]] =
      .ok [.obj [("severity", .str "blocking"), ("type", .str "suggestion")]] ∧
    warning_issues [.obj [("severity", .str "blocking"), ("type", .str "suggestion")]] =
      .ok [] :=
  ⟨rfl, rfl, rfl⟩

/-- Witness for C3 (amended) at a two-element list. -/
theorem c3_witness :
    [Json.obj [("severity", .str "blocking"), ("type", .str "suggestion")],
     Json.obj [("severity", .str "non-blocking"), ("type", .str "issue")]].filter
        (fun i => jFieldEq i "severity" "blocking") =
      [Json.obj [("severity", .str "blocking"), ("type", .str "suggestion")]] ∧
    [Json.obj [("severity", .str "blocking"), ("type", .str "suggestion")],
     Json.obj [("severity", .str "non-blocking"), ("type", .str "issue")]].filter
        (fun i => jFieldEq i "severity" "non-blocking" && ! jFieldEq i "type" "suggestion") =
      [Json.obj [("severity", .str "non-blocking"), ("type", .str "issue")]] ∧
    Json.obj [("severity", .str "blocking"), ("type", .str "suggestion")] ∈
      ([Json.obj [("severity", .str "blocking"), ("type", .str "suggestion")]] : List Json) := by
  have h := c3_amended
    [.obj [("severity", .str "blocking"), ("type", .str "suggestion")],
     .obj [("severity", .str "non-blocking"), ("type", .str "issue")]]
    [.obj [("severity", .str "blocking"), ("type", .str "suggestion")]]
    [.obj [("severity", .str "non-blocking"), ("type", .str "issue")]]
    [.obj [("severity", .str "blocking"), ("type", .str "suggestion")]]
    rfl rfl rfl
  refine ⟨h.1.symm, h.2.1.symm, ?_⟩
  exact (h.2.2.2 (.obj [("severity", .str "blocking"), ("type", .str "suggestion")])
    (by simp) (by rfl) (by rfl)).1

/-- Claim C4 (amended): 1000 newlines in one keyword-free file score
`min(1000/200, 2) + 0.5 = 2.5` and so map to `medium` (not `high`); a
single keyword-free file maps to `minimal` exactly when it has fewer than
200 newlines, and to `medium` whenever it has at least 200 — the capped
line term makes `high` unreachable for one file without bonuses. -/
theorem c4_amended :
    calculate_thinking_level ["f"] (String.mk (List.replicate 1000 '\n')) = "medium" ∧
    (∀ (files : List String) (code : String), files.length = 1 →
      total_lines code < 200 →
      has_security_code code = false → has_async code = false → has_classes code = false →
      calculate_thinking_level files code = "minimal") ∧
    (∀ (files : List String) (code : String), files.length = 1 →
      200 ≤ total_lines code →
      has_security_code code = false → has_async code = false → has_classes code = false →
      calculate_thinking_level files code = "medium") := by
  refine ⟨?_, ?_, ?_⟩
  · have h1 : total_lines (String.mk (List.replicate 1000 '\n')) = 1000 := by decide
    have h2 : has_security_code (String.mk (List.replicate 1000 '\n')) = false := by decide
    have h3 : has_async (String.mk (List.replicate 1000 '\n')) = false := by decide
    have h4 : has_classes (String.mk (List.replicate 1000 '\n')) = false := by decide
    have hs : complexity_score ["f"] (String.mk (List.replicate 1000 '\n')) = 5 / 2 := by
      simp only [complexity_score, h1, h2, h3, h4, List.length_cons, List.length_nil]
      norm_num
    simp only [calculate_thinking_level, hs]
    norm_num
  · intro files code hf hn h2 h3 h4
    have hq : ((total_lines code : ℚ)) / 200 < 1 := by
      rw [div_lt_one (by norm_num)]
      exact_mod_cast hn
    have hmin : min ((total_lines code : ℚ) / 200) 2 < 1 :=
      lt_of_le_of_lt (min_le_left _ _) hq
    have hs : complexity_score files code < 3 / 2 := by
      simp only [complexity_score, hf, h2, h3, h4]
      norm_num
      linarith
    simp only [calculate_thinking_level, if_pos hs]
  · intro files code hf hn h2 h3 h4
    have hq : (1 : ℚ) ≤ ((total_lines code : ℚ)) / 200 := by
      rw [le_div_iff (by norm_num)]
      push_cast
      exact_mod_cast by linarith [hn]
    have hmin1 : (1 : ℚ) ≤ min ((total_lines code : ℚ) / 200) 2 :=
      le_min hq (by norm_num)
    have hmin2 : min ((total_lines code : ℚ) / 200) 2 ≤ 2 := min_le_right _ _
    have hs1 : ¬ complexity_score files code < 3 / 2 := by
      simp only [complexity_score, hf, h2, h3, h4]
      norm_num
      linarith
    have hs2 : complexity_score files code < 3 := by
      simp only [complexity_score, hf, h2, h3, h4]
      norm_num
      linarith
    simp only [calculate_thinking_level, if_neg hs1, if_pos hs2]

/-- Counterexample for C4 as stated: 1000 newlines in one keyword-free file
yield `medium`, not `high` (the capped line term gives 2 + 0.5 = 2.5), and
250 newlines — under 300 — also yield `medium`, not `minimal`. -/
theorem c4_counterexample :
    calculate_thinking_level ["f"] (String.mk (List.replicate 1000 '\n')) = "medium" ∧
    "medium" ≠ "high" ∧
    calculate_thinking_level ["f"] (String.mk (List.replicate 250 '\n')) = "medium" ∧
    "medium" ≠ "minimal" := by
  refine ⟨?_, by decide, ?_, by decide⟩
  · have h1 : total_lines (String.mk (List.replicate 1000 '\n')) = 1000 := by decide
    have h2 : has_security_code (String.mk (List.replicate 1000 '\n')) = false := by decide
    have h3 : has_async (String.mk (List.replicate 1000 '\n')) = false := by decide
    have h4 : has_classes (String.mk (List.replicate 1000 '\n')) = false := by decide
    have hs : complexity_score ["f"] (String.mk (List.replicate 1000 '\n')) = 5 / 2 := by
      simp only [complexity_score, h1, h2, h3, h4, List.length_cons, List.length_nil]
      norm_num
    simp only [calculate_thinking_level, hs]
    norm_num
  · have h1 : total_lines (String.mk (List.replicate 250 '\n')) = 250 := by decide
    have h2 : has_security_code (String.mk (List.replicate 250 '\n')) = false := by decide
    have h3 : has_async (String.mk (List.replicate 250 '\n')) = false := by decide
    have h4 : has_classes (String.mk (List.replicate 250 '\n')) = false := by decide
    have hs : complexity_score ["f"] (String.mk (List.replicate 250 '\n')) = 7 / 4 := by
      simp only [complexity_score, h1, h2, h3, h4, List.length_cons, List.length_nil]
      norm_num
    simp only [calculate_thinking_level, hs]
    norm_num

/-- Witness for C4 (amended) at one-line and 200-line keyword-free files. -/
theorem c4_witness :
    calculate_thinking_level ["f"] "a\n" = "minimal" ∧
    calculate_thinking_level ["f"] (String.mk (List.replicate 200 '\n')) = "medium" := by
  constructor
  · exact c4_amended.2.1 ["f"] "a\n" rfl (by decide) (by decide) (by decide) (by decide)
  · exact c4_amended.2.2 ["f"] (String.mk (List.replicate 200 '\n')) rfl (by decide)
      (by decide) (by decide) (by decide)

/-- On issues that all lack an `id`, the backfill assigns consecutive
positions starting at `n`. -/
theorem backfillList_all_missing {xs : List Json}
    (hall : ∀ x ∈ xs, ∃ gfs, x = .obj gfs ∧ objLookup gfs "id" = none) (n : Nat) :
    ∃ ys, backfillList n xs = .ok ys ∧
      ys.map issueId = (List.range' n xs.length).map (fun m => some (.num m)) := by
  induction xs generalizing n with
  | nil => exact ⟨[], rfl, by simp⟩
  | cons x rest ih =>
    obtain ⟨gfs, hg, hnone⟩ := hall x (by simp)
    subst hg
    obtain ⟨ys, hys, hmap⟩ := ih (fun x hx => hall x (by simp [hx])) (n + 1)
    refine ⟨.obj (objSet gfs "id" (.num n)) :: ys, ?_, ?_⟩
    · simp [backfillList, pyContains, hnone, okBind, hys, exceptPure_eq, setItem]
    · simp [List.range', issueId, jLookup, objLookup_objSet_self, hmap]

/-- Claim C5 (amended): when every issue in the decoded reply lacks an `id`
field, the ids present after normalization form the contiguous sequence
1..N in input order.  (When only some issues lack ids, the backfilled
position ids can collide with or skip the model-supplied ones.) -/
theorem c5_amended (j d : Json) (xs : List Json)
    (hiss : getItem j "issues" = .ok (.arr xs))
    (hall : ∀ x ∈ xs, ∃ gfs, x = .obj gfs ∧ objLookup gfs "id" = none)
    (hnorm : normalizeReply j = .ok d) :
    ∃ ys, getItem d "issues" = .ok (.arr ys) ∧
      ys.map issueId = (List.range' 1 xs.length).map (fun m => some (.num m)) := by
  simp only [normalizeReply] at hnorm
  rw [exceptBind_ok] at hnorm
  obtain ⟨d2, hnorm, hss⟩ := hnorm
  rw [exceptBind_ok] at hnorm
  obtain ⟨d1, hdef, hbf⟩ := hnorm
  cases j with
  | obj fs =>
    obtain ⟨fs1, hdef', h1sum, h1iss, h1pos, h1other⟩ := step_defaults_obj fs
    rw [hdef'] at hdef
    cases hdef
    have hlk : objLookup fs "issues" = some (.arr xs) := by
      have := getItem_eq_ok_iff.mp hiss
      simpa [jLookup] using this
    rw [hlk] at h1iss
    simp only [Option.getD_some] at h1iss
    obtain ⟨ys, hys, hmap⟩ := backfillList_all_missing hall 1
    simp only [step_backfill] at hbf
    rw [exceptBind_ok] at hbf
    obtain ⟨v, hv, hbf⟩ := hbf
    have hv' : v = .arr xs := by
      rw [getItem_eq_ok_iff] at hv
      simp only [jLookup, h1iss] at hv
      exact (Option.some.injEq _ _ ▸ hv.symm :)
    subst hv'
    rw [exceptBind_ok] at hbf
    obtain ⟨ys', hys', hset⟩ := hbf
    rw [hys] at hys'
    cases hys'
    refine ⟨ys, ?_, hmap⟩
    rw [step_stats_pres hss (by decide)]
    exact getItem_setItem_self hset
  | null => simp [getItem] at hiss
  | bool b => simp [getItem] at hiss
  | num n => simp [getItem] at hiss
  | fnum m e => simp [getItem] at hiss
  | str s => simp [getItem] at hiss
  | arr l => simp [getItem] at hiss

/-- Counterexample for C5 as stated: in a reply where one issue carries a
model-supplied id (7) and the other lacks one, normalization yields ids
`[7, 2]` — neither contiguous nor starting at 1. -/
theorem c5_counterexample :
    parse_json_response "\x7b\"issues\": [\x7b\"id\": 7\x7d, \x7b\"title\": \"x\"\x7d]\x7d" = .ok (.obj
      [("issues", .arr [.obj [("id", .num 7)], .obj [("title", .str "x"), ("id", .num 2)]]),
       ("summary", .obj
          [("verdict", .str "request_changes"),
           ("overview", .str "Review completed"),
           ("stats", .obj [("blocking", .num 0), ("warning", .num 0), ("suggestion", .num 0)])]),
       ("positive_aspects", .arr [])]) ∧
    [Json.obj [("id", .num 7)], Json.obj [("title", .str "x"), ("id", .num 2)]].map issueId =
      [some (.num 7), some (.num 2)] ∧
    [some (Json.num 7), some (Json.num 2)] ≠
      (List.range' 1 2).map (fun m => some (Json.num m)) := by
  refine ⟨rfl, rfl, ?_⟩
  intro h
  simp [List.range'] at h

/-- Witness for C5 (amended) at a reply with two id-less issues. -/
theorem c5_witness :
    ∃ ys, getItem (.obj
      [("issues", .arr [.obj [("title", .str "x"), ("id", .num 1)], .obj [("id", .num 2)]]),
       ("summary", .obj
          [("verdict", .str "request_changes"),
           ("overview", .str "Review completed"),
           ("stats", .obj [("blocking", .num 0), ("warning", .num 0), ("suggestion", .num 0)])]),
       ("positive_aspects", .arr [])]) "issues" = .ok (.arr ys) ∧
      ys.map issueId = (List.range' 1 2).map (fun m => some (.num m)) := by
  have h := c5_amended
    (.obj [("issues", .arr [.obj [("title", .str "x")], .obj []])])
    (.obj
      [("issues", .arr [.obj [("title", .str "x"), ("id", .num 1)], .obj [("id", .num 2)]]),
       ("summary", .obj
          [("verdict", .str "request_changes"),
           ("overview", .str "Review completed"),
           ("stats", .obj [("blocking", .num 0), ("warning", .num 0), ("suggestion", .num 0)])]),
       ("positive_aspects", .arr [])])
    [.obj [("title", .str "x")], .obj []]
    rfl ?_ rfl
  · exact h
  · intro x hx
    rcases List.mem_cons.mp hx with h1 | h1
    · exact ⟨[("title", .str "x")], h1, rfl⟩
    · rcases List.mem_singleton.mp h1 with h2
      exact ⟨[], h2, rfl⟩

/-- When the decoded summary already carries a stats dict, the stats step
overwrites only the three recomputed entries and retains every other key
of the model-supplied stats unchanged. -/
theorem step_stats_retains {d0 d : Json} {sfs st : List (String × Json)}
    (h : step_stats d0 = .ok d)
    (hsum : getItem d0 "summary" = .ok (.obj sfs))
    (hst : objLookup sfs "stats" = some (.obj st)) :
    ∀ k, k ≠ "blocking" → k ≠ "warning" → k ≠ "suggestion" →
      statsField d k = objLookup st k := by
  intro k hk1 hk2 hk3
  simp only [step_stats] at h
  rw [exceptBind_ok] at h
  obtain ⟨summary0, hs0, h⟩ := h
  rw [hsum] at hs0
  cases hs0
  rw [exceptBind_ok] at h
  obtain ⟨has, hhas, h⟩ := h
  have hhas' : has = true := by
    simp only [pyContains, hst, Option.isSome_some] at hhas
    cases hhas
    rfl
  subst hhas'
  rw [exceptBind_ok] at h
  obtain ⟨data1, hd1, h⟩ := h
  simp only [statsEnsure, if_pos] at hd1
  cases hd1
  rw [exceptBind_ok] at h
  obtain ⟨summary1, hs1, h⟩ := h
  rw [hsum] at hs1
  cases hs1
  rw [exceptBind_ok] at h
  obtain ⟨stats0, hst0, h⟩ := h
  have hst0' : stats0 = .obj st := by
    rw [getItem_eq_ok_iff] at hst0
    simp only [jLookup, hst] at hst0
    exact (Option.some.injEq _ _ ▸ hst0.symm :)
  subst hst0'
  rw [exceptBind_ok] at h
  obtain ⟨issuesVal, hiv, h⟩ := h
  rw [exceptBind_ok] at h
  obtain ⟨elems, hel, h⟩ := h
  rw [exceptBind_ok] at h
  obtain ⟨b, hb, h⟩ := h
  rw [exceptBind_ok] at h
  obtain ⟨w, hw, h⟩ := h
  rw [exceptBind_ok] at h
  obtain ⟨sg, hsg, h⟩ := h
  rw [exceptBind_ok] at h
  obtain ⟨stats1, hst1, h⟩ := h
  rw [exceptBind_ok] at h
  obtain ⟨stats2, hst2, h⟩ := h
  rw [exceptBind_ok] at h
  obtain ⟨stats3, hst3, h⟩ := h
  rw [exceptBind_ok] at h
  obtain ⟨summary2, hs2, h⟩ := h
  have h1 : jLookup d "summary" = some summary2 :=
    getItem_eq_ok_iff.mp (getItem_setItem_self h)
  have h2 : jLookup summary2 "stats" = some stats3 :=
    getItem_eq_ok_iff.mp (getItem_setItem_self hs2)
  simp only [statsField, h1, Option.bind_some, Option.some_bind]
  rw [h2]
  simp only [Option.bind_some, Option.some_bind]
  simp only [setItem] at hst1 hst2 hst3
  cases hst1
  cases hst2
  cases hst3
  simp only [jLookup]
  rw [objLookup_objSet_ne _ _ (Ne.symm hk3), objLookup_objSet_ne _ _ (Ne.symm hk2),
    objLookup_objSet_ne _ _ (Ne.symm hk1)]

/-- Claim C6 (amended): the normalizer overwrites only the `blocking`,
`warning` and `suggestion` entries of `summary.stats`; any other key the
model supplied under stats is retained with its original value, so the
model's stats content is not discarded wholesale. -/
theorem c6_amended (j d : Json) (sfs st : List (String × Json))
    (hsum : jLookup j "summary" = some (.obj sfs))
    (hst : objLookup sfs "stats" = some (.obj st))
    (hnorm : normalizeReply j = .ok d) :
    ∀ k, k ≠ "blocking" → k ≠ "warning" → k ≠ "suggestion" →
      statsField d k = objLookup st k := by
  simp only [normalizeReply] at hnorm
  rw [exceptBind_ok] at hnorm
  obtain ⟨d2, hnorm, hss⟩ := hnorm
  rw [exceptBind_ok] at hnorm
  obtain ⟨d1, hdef, hbf⟩ := hnorm
  cases j with
  | obj fs =>
    obtain ⟨fs1, hdef', h1sum, h1iss, h1pos, h1other⟩ := step_defaults_obj fs
    rw [hdef'] at hdef
    cases hdef
    simp only [jLookup] at hsum
    rw [hsum] at h1sum
    simp only [Option.getD_some] at h1sum
    have hsum2 : getItem d2 "summary" = .ok (.obj sfs) := by
      rw [step_backfill_pres hbf (by decide)]
      rw [getItem_eq_ok_iff]
      simpa [jLookup] using h1sum
    exact step_stats_retains hss hsum2 hst
  | null => simp [jLookup] at hsum
  | bool b => simp [jLookup] at hsum
  | num n => simp [jLookup] at hsum
  | fnum m e => simp [jLookup] at hsum
  | str s => simp [jLookup] at hsum
  | arr l => simp [jLookup] at hsum

/-- Counterexample for C6 as stated: two replies identical except for the
content of `summary.stats` (one empty, one with an extra key) normalize to
different results — the extra key survives with its value. -/
theorem c6_counterexample :
    parse_json_response
        "\x7b\"summary\": \x7b\"stats\": \x7b\x7d\x7d, \"issues\": []\x7d" = .ok (.obj
      [("summary", .obj [("stats", .obj
          [("blocking", .num 0), ("warning", .num 0), ("suggestion", .num 0)])]),
       ("issues", .arr []),
       ("positive_aspects", .arr [])]) ∧
    parse_json_response
        "\x7b\"summary\": \x7b\"stats\": \x7b\"extra\": 5\x7d\x7d, \"issues\": []\x7d" = .ok (.obj
      [("summary", .obj [("stats", .obj
          [("extra", .num 5), ("blocking", .num 0), ("warning", .num 0), ("suggestion", .num 0)])]),
       ("issues", .arr []),
       ("positive_aspects", .arr [])]) ∧
    statsField (.obj
      [("summary", .obj [("stats", .obj
          [("extra", .num 5), ("blocking", .num 0), ("warning", .num 0), ("suggestion", .num 0)])]),
       ("issues", .arr []),
       ("positive_aspects", .arr [])]) "extra" = some (.num 5) ∧
    statsField (.obj
      [("summary", .obj [("stats", .obj
          [("blocking", .num 0), ("warning", .num 0), ("suggestion", .num 0)])]),
       ("issues", .arr []),
       ("positive_aspects", .arr [])]) "extra" = none :=
  ⟨rfl, rfl, rfl, rfl⟩

/-- Witness for C6 (amended) at a reply whose stats carry an extra key. -/
theorem c6_witness :
    statsField (.obj
      [("summary", .obj [("stats", .obj
          [("extra", .num 5), ("blocking", .num 0), ("warning", .num 0), ("suggestion", .num 0)])]),
       ("issues", .arr []),
       ("positive_aspects", .arr [])]) "extra" = some (.num 5) := by
  have h := c6_amended
    (.obj [("summary", .obj [("stats", .obj [("extra", .num 5)])]), ("issues", .arr [])])
    (.obj
      [("summary", .obj [("stats", .obj
          [("extra", .num 5), ("blocking", .num 0), ("warning", .num 0), ("suggestion", .num 0)])]),
       ("issues", .arr []),
       ("positive_aspects", .arr [])])
    [("stats", .obj [("extra", .num 5)])]
    [("extra", .num 5)]
    rfl rfl rfl "extra" (by decide) (by decide) (by decide)
  rw [h]
  rfl

/-- Claim C7: the reply `&#123;"issues": [&#123;"title":"x"&#125;]&#125;` normalizes to a
success result with a synthesized `request_changes` summary, issue id 1 and
all-zero stats; and in general a missing `issues` or `positive_aspects`
key is replaced by an empty sequence. -/
theorem c7_defaults :
    parse_json_response "\x7b\"issues\": [\x7b\"title\":\"x\"\x7d]\x7d" = .ok (.obj
      [("issues", .arr [.obj [("title", .str "x"), ("id", .num 1)]]),
       ("summary", .obj
          [("verdict", .str "request_changes"),
           ("overview", .str "Review completed"),
           ("stats", .obj [("blocking", .num 0), ("warning", .num 0), ("suggestion", .num 0)])]),
       ("positive_aspects", .arr [])]) ∧
    (∀ (fs : List (String × Json)) (d : Json), normalizeReply (.obj fs) = .ok d →
      (objLookup fs "issues" = none → getItem d "issues" = .ok (.arr [])) ∧
      (objLookup fs "positive_aspects" = none →
        getItem d "positive_aspects" = .ok (.arr []))) := by
  refine ⟨rfl, ?_⟩
  intro fs d hnorm
  simp only [normalizeReply] at hnorm
  rw [exceptBind_ok] at hnorm
  obtain ⟨d2, hnorm, hss⟩ := hnorm
  rw [exceptBind_ok] at hnorm
  obtain ⟨d1, hdef, hbf⟩ := hnorm
  obtain ⟨fs1, hdef', h1sum, h1iss, h1pos, h1other⟩ := step_defaults_obj fs
  rw [hdef'] at hdef
  cases hdef
  constructor
  · intro habs
    rw [habs] at h1iss
    simp only [Option.getD_none] at h1iss
    simp only [step_backfill] at hbf
    rw [exceptBind_ok] at hbf
    obtain ⟨v, hv, hbf⟩ := hbf
    have hv' : v = .arr [] := by
      rw [getItem_eq_ok_iff] at hv
      simp only [jLookup, h1iss] at hv
      exact (Option.some.injEq _ _ ▸ hv.symm :)
    subst hv'
    rw [exceptBind_ok] at hbf
    obtain ⟨ys', hys', hset⟩ := hbf
    have hys'' : ys' = [] := by
      simp only [backfillList] at hys'
      cases hys'
      rfl
    subst hys''
    rw [step_stats_pres hss (by decide)]
    exact getItem_setItem_self hset
  · intro habs
    rw [habs] at h1pos
    simp only [Option.getD_none] at h1pos
    rw [step_stats_pres hss (by decide), step_backfill_pres hbf (by decide)]
    rw [getItem_eq_ok_iff]
    simpa [jLookup] using h1pos

/-- Witness for C7's general part at the empty reply object. -/
theorem c7_witness :
    getItem (.obj
      [("summary", .obj
          [("verdict", .str "request_changes"),
           ("overview", .str "Review completed"),
           ("stats", .obj [("blocking", .num 0), ("warning", .num 0), ("suggestion", .num 0)])]),
       ("issues", .arr []),
       ("positive_aspects", .arr [])]) "issues" = .ok (.arr []) ∧
    getItem (.obj
      [("summary", .obj
          [("verdict", .str "request_changes"),
           ("overview", .str "Review completed"),
           ("stats", .obj [("blocking", .num 0), ("warning", .num 0), ("suggestion", .num 0)])]),
       ("issues", .arr []),
       ("positive_aspects", .arr [])]) "positive_aspects" = .ok (.arr []) := by
  have h := c7_defaults.2 [] (.obj
      [("summary", .obj
          [("verdict", .str "request_changes"),
           ("overview", .str "Review completed"),
           ("stats", .obj [("blocking", .num 0), ("warning", .num 0), ("suggestion", .num 0)])]),
       ("issues", .arr []),
       ("positive_aspects", .arr [])]) rfl
  exact ⟨h.1 rfl, h.2 rfl⟩

/-- Claim C9: on any input whose fence-stripped, trimmed text fails strict
JSON decoding, the normalizer returns the `JSON_PARSE_ERROR` dict carrying
the decoder's error text and the first 500 characters of the pre-decode
text — never longer than 500, and non-empty whenever the pre-decode text
is non-empty. -/
theorem c9_parse_error (s : String) (e : String)
    (hfail : json_loads (preprocessL s.toList) = .error e) :
    parse_json_response s = .ok (json_parse_error_dict e (preprocessL s.toList)) ∧
    getItem (json_parse_error_dict e (preprocessL s.toList)) "error" =
      .ok (.str "JSON_PARSE_ERROR") ∧
    getItem (json_parse_error_dict e (preprocessL s.toList)) "message" =
      .ok (.str ("Failed to parse response: " ++ e)) ∧
    getItem (json_parse_error_dict e (preprocessL s.toList)) "raw_response" =
      .ok (.str (String.mk ((preprocessL s.toList).take 500))) ∧
    ((preprocessL s.toList).take 500).length ≤ 500 ∧
    (preprocessL s.toList ≠ [] → (preprocessL s.toList).take 500 ≠ []) := by
  refine ⟨?_, rfl, rfl, rfl, ?_, ?_⟩
  · simp only [parse_json_response, hfail]
  · rw [List.length_take]
    exact min_le_left _ _
  · intro hne
    cases hl : preprocessL s.toList with
    | nil => exact absurd hl hne
    | cons c rest => simp

/-- Witness for C9 at the reply text `not json at all`. -/
theorem c9_witness :
    parse_json_response "not json at all" =
      .ok (json_parse_error_dict "Expecting value" (preprocessL "not json at all".toList)) ∧
    getItem (json_parse_error_dict "Expecting value" (preprocessL "not json at all".toList))
        "error" = .ok (.str "JSON_PARSE_ERROR") ∧
    getItem (json_parse_error_dict "Expecting value" (preprocessL "not json at all".toList))
        "message" = .ok (.str ("Failed to parse response: " ++ "Expecting value")) ∧
    getItem (json_parse_error_dict "Expecting value" (preprocessL "not json at all".toList))
        "raw_response" =
      .ok (.str (String.mk ((preprocessL "not json at all".toList).take 500))) ∧
    ((preprocessL "not json at all".toList).take 500).length ≤ 500 ∧
    (preprocessL "not json at all".toList ≠ [] →
      (preprocessL "not json at all".toList).take 500 ≠ []) :=
  c9_parse_error "not json at all" "Expecting value" rfl

/-- When every readable candidate is extension-excluded or oversized, no
file is marked valid. -/
theorem review_collect_no_valid (fs : String → FileEntry) (paths : List String)
    (h : ∀ fp ∈ paths, ∀ c, fs fp = .file c →
      lowerS (pySuffix fp) ∈ skip_extensions ∨ c.length > 50000) :
    (review_collect fs paths).2 = [] := by
  induction paths with
  | nil => rfl
  | cons q rest ih =>
    have ih' := ih (fun fp hfp c hc => h fp (by simp [hfp]) c hc)
    rcases hrec : review_collect fs rest with ⟨ps, vs⟩
    rw [hrec] at ih'
    cases hfe : fs q with
    | missing => simpa [review_collect, hfe, hrec] using ih'
    | notFile => simpa [review_collect, hfe, hrec] using ih'
    | readError e =>
      by_cases hsk : lowerS (pySuffix q) ∈ skip_extensions
      · simpa [review_collect, hfe, hrec, hsk] using ih'
      · simpa [review_collect, hfe, hrec, hsk] using ih'
    | file c =>
      rcases h q (by simp) c hfe with hsk | hbig
      · simpa [review_collect, hfe, hrec, hsk] using ih'
      · by_cases hsk : lowerS (pySuffix q) ∈ skip_extensions
        · simpa [review_collect, hfe, hrec, hsk] using ih'
        · simpa [review_collect, hfe, hrec, hsk, hbig] using ih'

/-- Claim C10: a file whose content exceeds 50000 characters is rendered as
the one-line placeholder and never enters the valid-files list, so a
candidate list in which every readable, non-excluded regular file is
oversized short-circuits to the `NO_FILES` error. -/
theorem c10_oversized (fs : String → FileEntry) (paths : List String) :
    (∀ fp c, fs fp = .file c → c.length > 50000 → fp ∉ (review_collect fs paths).2) ∧
    (∀ fp c, fp ∈ paths → fs fp = .file c →
      ¬ lowerS (pySuffix fp) ∈ skip_extensions → c.length > 50000 →
      placeholderPart fp c ∈ (review_collect fs paths).1) ∧
    ((∀ fp ∈ paths, ∀ c, fs fp = .file c →
        lowerS (pySuffix fp) ∈ skip_extensions ∨ c.length > 50000) →
      review_code_files fs paths = .error no_files_dict) := by
  refine ⟨?_, ?_, ?_⟩
  · intro fp c hfe hbig
    induction paths with
    | nil => simp [review_collect]
    | cons q rest ih =>
      rcases hrec : review_collect fs rest with ⟨ps, vs⟩
      rw [hrec] at ih
      cases hq : fs q with
      | missing => simpa [review_collect, hq, hrec] using ih
      | notFile => simpa [review_collect, hq, hrec] using ih
      | readError e =>
        by_cases hsk : lowerS (pySuffix q) ∈ skip_extensions
        · simpa [review_collect, hq, hrec, hsk] using ih
        · simpa [review_collect, hq, hrec, hsk] using ih
      | file c' =>
        by_cases hsk : lowerS (pySuffix q) ∈ skip_extensions
        · simpa [review_collect, hq, hrec, hsk] using ih
        · by_cases hbig' : c'.length > 50000
          · simpa [review_collect, hq, hrec, hsk, hbig'] using ih
          · simp only [review_collect, hq, hrec]
            intro hmem
            rw [if_neg hsk, if_neg hbig'] at hmem
            simp only [] at hmem
            rcases List.mem_cons.mp hmem with heq | hmem'
            · subst heq
              rw [hfe] at hq
              cases hq
              omega
            · exact ih hmem'
  · intro fp c hfp hfe hsk hbig
    induction paths with
    | nil => simp at hfp
    | cons q rest ih =>
      rcases hrec : review_collect fs rest with ⟨ps, vs⟩
      rw [hrec] at ih
      rcases List.mem_cons.mp hfp with heq | hfp'
      · subst heq
        simp [review_collect, hfe, hrec, hsk, hbig]
      · have ihm := ih hfp'
        cases hq : fs q with
        | missing => simpa [review_collect, hq, hrec] using ihm
        | notFile => simpa [review_collect, hq, hrec] using ihm
        | readError e =>
          by_cases hsk' : lowerS (pySuffix q) ∈ skip_extensions
          · simpa [review_collect, hq, hrec, hsk'] using ihm
          · simp [review_collect, hq, hrec, hsk']
            right
            exact ihm
        | file c' =>
          by_cases hsk' : lowerS (pySuffix q) ∈ skip_extensions
          · simpa [review_collect, hq, hrec, hsk'] using ihm
          · by_cases hbig' : c'.length > 50000
            · simp [review_collect, hq, hrec, hsk', hbig']
              right
              exact ihm
            · simp [review_collect, hq, hrec, hsk', hbig']
              right
              exact ihm
  · intro h
    have hv := review_collect_no_valid fs paths h
    rcases hrec : review_collect fs paths with ⟨ps, vs⟩
    rw [hrec] at hv
    simp only at hv
    subst hv
    simp [review_code_files, hrec]

/-- Witness for C10: a single oversized readable `.py` candidate is
rendered as a placeholder, not marked valid, and the run short-circuits to
`NO_FILES`. -/
theorem c10_witness :
    "a.py" ∉ (review_collect (fun _ => .file (String.mk (List.replicate 50001 'x')))
      ["a.py"]).2 ∧
    placeholderPart "a.py" (String.mk (List.replicate 50001 'x')) ∈
      (review_collect (fun _ => .file (String.mk (List.replicate 50001 'x'))) ["a.py"]).1 ∧
    review_code_files (fun _ => .file (String.mk (List.replicate 50001 'x'))) ["a.py"] =
      .error no_files_dict := by
  have hlen : (String.mk (List.replicate 50001 'x')).length > 50000 := by
    show (List.replicate 50001 'x').length > 50000
    rw [List.length_replicate]
    omega
  have h := c10_oversized (fun _ => .file (String.mk (List.replicate 50001 'x'))) ["a.py"]
  refine ⟨h.1 "a.py" _ rfl hlen, ?_, ?_⟩
  · exact h.2.1 "a.py" _ (by simp) rfl (by decide) hlen
  · exact h.2.2 (fun fp hfp c hc => by
      right
      cases hc
      exact hlen)

/-- Windowed containment: matching a pattern on an extended list agrees with
matching on the original when the pattern fits. -/
theorem startsL_append_left {pat l : List Char} (X : List Char)
    (h : pat.length ≤ l.length) : startsL pat (l ++ X) = startsL pat l := by
  induction pat generalizing l with
  | nil => simp [startsL]
  | cons p ps ih =>
    cases l with
    | nil => simp at h
    | cons c cs =>
      simp only [List.cons_append, startsL, List.append_eq]
      rw [ih (by simpa using Nat.le_of_succ_le_succ h)]

/-- Dropping while is idempotent. -/
theorem dropWhile_ws_idem (l : List Char) :
    (l.dropWhile wsB).dropWhile wsB = l.dropWhile wsB := by
  induction l with
  | nil => rfl
  | cons c t ih =>
    by_cases h : wsB c
    · simp [List.dropWhile, h, ih]
    · simp [List.dropWhile, h]

/-- The head surviving a `dropWhile` fails the predicate. -/
theorem dropWhile_head_not (l : List Char) :
    l.dropWhile wsB = [] ∨ ∃ c t, l.dropWhile wsB = c :: t ∧ wsB c = false := by
  induction l with
  | nil => exact .inl rfl
  | cons c t ih =>
    by_cases h : wsB c
    · simpa [List.dropWhile, h] using ih
    · exact .inr ⟨c, t, by simp [List.dropWhile, h], by simpa using h⟩

/-- `dropWhile` keeps the last element when its result is non-empty. -/
theorem dropWhile_getLast? (l : List Char) (h : l.dropWhile wsB ≠ []) :
    (l.dropWhile wsB).getLast? = l.getLast? := by
  induction l with
  | nil => simp at h
  | cons c t ih =>
    by_cases hc : wsB c
    · rw [List.dropWhile_cons_of_pos (by simpa using hc)] at h ⊢
      cases t with
      | nil => simp [List.dropWhile] at h
      | cons b l => rw [ih h, List.getLast?_cons_cons]
    · rw [List.dropWhile_cons_of_neg (by simpa using hc)]

/-- `dropWhile` over an append. -/
theorem dropWhile_ws_append (l m : List Char) :
    (l ++ m).dropWhile wsB =
      if (l.dropWhile wsB).isEmpty then m.dropWhile wsB else l.dropWhile wsB ++ m := by
  induction l with
  | nil => simp
  | cons c t ih =>
    by_cases h : wsB c
    · simpa [List.dropWhile, h] using ih
    · simp [List.dropWhile, h]

/-- A leading newline is stripped. -/
theorem trimL_cons_nl (l : List Char) : trimL ('\n' :: l) = trimL l := by
  simp [trimL, List.dropWhile_cons, wsB]

/-- A trailing newline is stripped. -/
theorem trimL_append_nl (l : List Char) : trimL (l ++ ['\n']) = trimL l := by
  unfold trimL
  rw [dropWhile_ws_append]
  rcases dropWhile_head_not l with h | ⟨c, t, h, hc⟩
  · rw [h]
    simp [List.dropWhile_cons, wsB]
  · rw [h]
    simp only [List.isEmpty_cons, if_false, Bool.false_eq_true]
    rw [List.reverse_append]
    simp only [List.reverse_cons, List.reverse_nil, List.nil_append, List.singleton_append]
    rw [List.dropWhile_cons_of_pos (by simp [wsB])]

/-- Trimming is idempotent. -/
theorem trimL_idem (l : List Char) : trimL (trimL l) = trimL l := by
  rcases dropWhile_head_not l with h | ⟨c, t, h, hc⟩
  · have hz : trimL l = [] := by simp [trimL, h]
    rw [hz]
    rfl
  · have hT : trimL l = ((c :: t).reverse.dropWhile wsB).reverse := by
      simp [trimL, h]
    set B := (c :: t).reverse.dropWhile wsB with hB
    by_cases hBe : B = []
    · rw [hT, hBe]
      rfl
    · have h1 : B.getLast? = some c := by
        rw [hB, dropWhile_getLast? _ (by rw [← hB]; exact hBe)]
        simp [List.getLast?_reverse]
      have h2 : B.reverse.head? = some c := by
        rw [List.head?_reverse]
        exact h1
      obtain ⟨R', hR⟩ : ∃ R', B.reverse = c :: R' := by
        cases hx : B.reverse with
        | nil =>
          rw [hx] at h2
          simp at h2
        | cons a r =>
          rw [hx] at h2
          simp only [List.head?_cons, Option.some.injEq] at h2
          exact ⟨r, by rw [h2]⟩
      rw [hT]
      unfold trimL
      rw [hR, List.dropWhile_cons_of_neg (by simpa using hc)]
      have h3 : (c :: R').reverse = B := by
        rw [← hR, List.reverse_reverse]
      rw [h3, hB, dropWhile_ws_idem, ← hB]
      exact hR

/-- Without a fence delimiter anywhere, the fence search fails. -/
theorem fenceFrom_none {cs : List Char} (h : containsSub cs ticksL = false) :
    fenceFrom cs = none := by
  induction cs with
  | nil => rfl
  | cons c rest ih =>
    simp only [containsSub, Bool.or_eq_false_iff] at h
    rw [fenceFrom]
    rw [h.1]
    simp only [Bool.false_eq_true, if_false]
    exact ih h.2

/-- A leading newline cannot start a fence. -/
theorem containsSub_cons_nl {l : List Char} (h : containsSub l ticksL = false) :
    containsSub ('\n' :: l) ticksL = false := by
  simp only [containsSub, Bool.or_eq_false_iff]
  exact ⟨by simp [startsL, ticksL], h⟩

/-- Appending a newline cannot create a fence. -/
theorem containsSub_append_nl {l : List Char} (h : containsSub l ticksL = false) :
    containsSub (l ++ ['\n']) ticksL = false := by
  induction l with
  | nil => simp [containsSub, startsL, ticksL]
  | cons c t ih =>
    simp only [containsSub, Bool.or_eq_false_iff] at h
    simp only [List.cons_append, containsSub, Bool.or_eq_false_iff]
    refine ⟨?_, ih h.2⟩
    cases t with
    | nil => simp [startsL, ticksL, wsB]
    | cons d t' =>
      cases t' with
      | nil => simp [startsL, ticksL]
      | cons e t'' =>
        have hlen : (ticksL).length ≤ (c :: d :: e :: t'').length := by
          simp [ticksL]
        have hsa := @startsL_append_left ticksL (c :: d :: e :: t'') ['\n'] hlen
        show startsL ticksL ((c :: d :: e :: t'') ++ ['\n']) = false
        rw [hsa]
        exact h.1

/-- The first closing fence after a tick-free, tick-safe prefix sits exactly
at the prefix's end. -/
theorem closeIdx_append (pre rest : List Char)
    (h1 : containsSub pre ticksL = false)
    (h2 : pre.getLast? ≠ some '`') :
    closeIdx (pre ++ '`' :: '`' :: '`' :: rest) = some pre.length := by
  induction pre with
  | nil => simp [closeIdx, startsL, ticksL]
  | cons c cs ih =>
    simp only [containsSub, Bool.or_eq_false_iff] at h1
    have hhead : startsL ticksL ((c :: cs) ++ '`' :: '`' :: '`' :: rest) = false := by
      cases cs with
      | nil =>
        have hc : c ≠ '`' := by
          intro he
          apply h2
          rw [he]
          rfl
        have hc' : ¬ ('`' = c) := fun he => hc he.symm
        simp [startsL, ticksL, hc']
      | cons d cs' =>
        cases cs' with
        | nil =>
          have hd : d ≠ '`' := by
            intro he
            apply h2
            rw [he]
            rfl
          have hd' : ¬ ('`' = d) := fun he => hd he.symm
          simp [startsL, ticksL, hd']
        | cons e cs'' =>
          have hlen : (ticksL).length ≤ (c :: d :: e :: cs'').length := by
            simp [ticksL]
          have := @startsL_append_left ticksL (c :: d :: e :: cs'')
            ('`' :: '`' :: '`' :: rest) hlen
          rw [this]
          exact h1.1
    rw [List.cons_append, closeIdx]
    rw [show ((c :: (cs ++ '`' :: '`' :: '`' :: rest))) = ((c :: cs) ++ '`' :: '`' :: '`' :: rest) from rfl] at *
    rw [hhead]
    simp only [Bool.false_eq_true, if_false]
    have h2' : cs.getLast? ≠ some '`' := by
      cases cs with
      | nil =>
        simp
      | cons d cs' =>
        intro he
        apply h2
        rw [List.getLast?_cons_cons]
        exact he
    rw [ih h1.2 h2']
    simp [List.length_cons]


/-- The fence search on a `json`-tagged wrapped document extracts the
trimmed document: the opening delimiter and tag are consumed, and the first
closing delimiter is the appended one since the document contains none. -/
theorem fenceFrom_tagged (x : List Char) (h : containsSub x ticksL = false) :
    fenceFrom ('`' :: '`' :: '`' :: 'j' :: 's' :: 'o' :: 'n' :: '\n' ::
        (x ++ ['\n', '`', '`', '`'])) =
      some (trimL ('\n' :: (x ++ ['\n']))) := by
  rw [fenceFrom]
  rw [show startsL ticksL ('`' :: '`' :: '`' :: 'j' :: 's' :: 'o' :: 'n' :: '\n' ::
      (x ++ ['\n', '`', '`', '`'])) = true from by simp [startsL, ticksL]]
  simp only [if_true, List.drop_succ_cons, List.drop_zero]
  rw [show startsL ['j', 's', 'o', 'n']
      ('j' :: 's' :: 'o' :: 'n' :: '\n' :: (x ++ ['\n', '`', '`', '`'])) = true from by
    simp [startsL]]
  simp only [if_true]
  rw [show '\n' :: (x ++ ['\n', '`', '`', '`']) =
      ('\n' :: (x ++ ['\n'])) ++ '`' :: '`' :: '`' :: ([] : List Char) from by simp]
  rw [closeIdx_append _ _ (containsSub_cons_nl (containsSub_append_nl h)) (by
    rw [show '\n' :: (x ++ ['\n']) = ('\n' :: x) ++ ['\n'] from by simp]
    rw [List.getLast?_concat]
    simp)]
  simp only []
  rw [List.take_left]


/-- The fence search on an untagged wrapped document extracts the trimmed
document. -/
theorem fenceFrom_untagged (x : List Char) (h : containsSub x ticksL = false) :
    fenceFrom ('`' :: '`' :: '`' :: '\n' :: (x ++ ['\n', '`', '`', '`'])) =
      some (trimL ('\n' :: (x ++ ['\n']))) := by
  rw [fenceFrom]
  rw [show startsL ticksL ('`' :: '`' :: '`' :: '\n' ::
      (x ++ ['\n', '`', '`', '`'])) = true from by simp [startsL, ticksL]]
  simp only [if_true, List.drop_succ_cons, List.drop_zero]
  rw [show startsL ['j', 's', 'o', 'n']
      ('\n' :: (x ++ ['\n', '`', '`', '`'])) = false from by simp [startsL]]
  simp only [Bool.false_eq_true, if_false]
  rw [show '\n' :: (x ++ ['\n', '`', '`', '`']) =
      ('\n' :: (x ++ ['\n'])) ++ '`' :: '`' :: '`' :: ([] : List Char) from by simp]
  rw [closeIdx_append _ _ (containsSub_cons_nl (containsSub_append_nl h)) (by
    rw [show '\n' :: (x ++ ['\n']) = ('\n' :: x) ++ ['\n'] from by simp]
    rw [List.getLast?_concat]
    simp)]
  simp only []
  rw [List.take_left]

/-- Preprocessing a wrapped document (tagged or untagged) yields the same
trimmed text as preprocessing the bare document. -/
theorem preprocessL_wrapped (x : List Char) (h : containsSub x ticksL = false) :
    preprocessL ('`' :: '`' :: '`' :: 'j' :: 's' :: 'o' :: 'n' :: '\n' ::
        (x ++ ['\n', '`', '`', '`'])) = trimL x ∧
    preprocessL ('`' :: '`' :: '`' :: '\n' :: (x ++ ['\n', '`', '`', '`'])) = trimL x := by
  constructor
  · simp only [preprocessL, fenceFrom_tagged x h]
    rw [trimL_idem, trimL_cons_nl, trimL_append_nl]
  · simp only [preprocessL, fenceFrom_untagged x h]
    rw [trimL_idem, trimL_cons_nl, trimL_append_nl]

/-- Character-level view of the tagged wrapper. -/
theorem c8_toList_tagged (s : String) :
    ("```json\n" ++ s ++ "\n```").toList =
      '`' :: '`' :: '`' :: 'j' :: 's' :: 'o' :: 'n' :: '\n' ::
        (s.toList ++ ['\n', '`', '`', '`']) := rfl

/-- Character-level view of the untagged wrapper. -/
theorem c8_toList_untagged (s : String) :
    ("```\n" ++ s ++ "\n```").toList =
      '`' :: '`' :: '`' :: '\n' :: (s.toList ++ ['\n', '`', '`', '`']) := rfl

/-- Claim C8: fence stripping is idempotent — for a document containing no
fence delimiter (and decoding as valid JSON), normalizing the bare text and
normalizing the text wrapped in a fenced block, optionally tagged `json`,
yield the same result. -/
theorem c8_fence_idem (s : String)
    (hnof : containsSub s.toList ticksL = false)
    (hvalid : (json_loads (trimL s.toList)).isOk = true) :
    parse_json_response ("```json\n" ++ s ++ "\n```") = parse_json_response s ∧
    parse_json_response ("```\n" ++ s ++ "\n```") = parse_json_response s := by
  have hw := preprocessL_wrapped s.toList hnof
  have hplain : preprocessL s.toList = trimL s.toList := by
    rw [preprocessL, fenceFrom_none hnof]
  constructor
  · simp only [parse_json_response, c8_toList_tagged, hw.1, hplain]
  · simp only [parse_json_response, c8_toList_untagged, hw.2, hplain]

/-- Witness for C8 at a small JSON object. -/
theorem c8_witness :
    (parse_json_response ("```json\n" ++ "\x7b\"a\": 1\x7d" ++ "\n```") =
      parse_json_response "\x7b\"a\": 1\x7d") ∧
    (parse_json_response ("```\n" ++ "\x7b\"a\": 1\x7d" ++ "\n```") =
      parse_json_response "\x7b\"a\": 1\x7d") :=
  c8_fence_idem "\x7b\"a\": 1\x7d" (by decide) (by decide)
